import Mathlib

/-!
Verification development for the OPTISCHEDULE hierarchical course scheduler
(`Backend/app/core/scheduler.py`).

The Python source builds, per scheduling phase, a CP-SAT model whose decision
variables are the start slot, room index and day index of every course meeting,
hands the model to an external solver, and carries the extracted events forward
as occupancy state for the next phase.  We embed:

* the pure helper functions (`prioritize_and_partition_courses`,
  `get_available_time_slots`, `get_phase_timeout`,
  `calculate_phase_difficulty`, `setup_time_parameters`) directly as Lean
  functions;
* the model builder (`create_course_sessions` / `create_session_type`) as a
  counter-threading function producing session specifications (one per weekly
  meeting) whose `domain` field is the start-variable domain the builder hands
  to the solver;
* the external CP-SAT solver as a nondeterministic choice: a phase solution is
  any list of events that is pointwise consistent with the phase's session
  specifications and satisfies every hard constraint posted on the model
  (start-domain membership, end bound, day-variable bounds, room bounds,
  section no-overlap, room no-overlap including the carried-forward fixed
  intervals of earlier phases, room consistency, and the per-block day caps);
* the whole run (`solve`) as the relation `RunSteps` chaining phases, where a
  phase may rebuild its model once (the feasibility attempt followed by the
  optimize attempt both advance the `schedule_id` counter);
* the progress channel and the orchestrator (`solve` / `generate_schedule`)
  as explicit write-trace / outcome functions.

Python's float arithmetic in `get_phase_timeout` and in the progress
interpolation is modelled with exact rational / integer arithmetic; every
concrete value used in a theorem below is exactly representable, so the
idealization is faithful at those points.  Presentation-only fields of an
extracted event (the formatted period string, the day name, the room name and
the suffixed display code) are derived values never referenced by the claims
and are not part of the `Event` record.
-/

namespace OptiSchedule

/-- Session kinds, i.e. the `'lecture'` / `'lab'` strings used both as room
catalog keys and as the `sess_type` argument of `create_session_type`. -/
inductive SessType where
  | lecture : SessType
  | lab : SessType
deriving DecidableEq, Repr

/-- An input course record (`load_courses` element).  Field names follow the
Python dictionary keys; `blocks` is the number of parallel sections. -/
structure Course where
  courseCode : String
  title : String
  program : String
  yearLevel : Nat
  unitsLecture : Nat
  unitsLab : Nat
  blocks : Nat
deriving DecidableEq, Repr

/-- The `SchedulingPhase` enum of the source. -/
inductive SchedulingPhase where
  | PHASE_1_FLEXIBLE : SchedulingPhase
  | PHASE_2_REGULAR : SchedulingPhase
  | PHASE_3_CRITICAL : SchedulingPhase
deriving DecidableEq, Repr

/-- The numeric `value` of each enum member. -/
def SchedulingPhase.value : SchedulingPhase → Nat
  | .PHASE_1_FLEXIBLE => 1
  | .PHASE_2_REGULAR => 2
  | .PHASE_3_CRITICAL => 3

/-- Run configuration: the room catalog (`load_rooms`), the opening hours
(`load_time_settings`) and the day list (`load_days`). -/
structure Config where
  lectureRooms : List String
  labRooms : List String
  startT : Nat
  endT : Nat
  days : List String
deriving DecidableEq, Repr

/-- Room list for a session kind (`self.rooms[sess_type]`). -/
def Config.rooms (cfg : Config) : SessType → List String
  | .lecture => cfg.lectureRooms
  | .lab => cfg.labRooms

/-- The fixed `self.inc_hr = 2` (two slots per hour). -/
def incHr : Nat := 2

/-- Slots per day: `self.inc_day = (end_t - start_t) * inc_hr`. -/
def Config.incDay (cfg : Config) : Nat := (cfg.endT - cfg.startT) * incHr

/-- Total slots: `self.total_inc = inc_day * len(days)`. -/
def Config.totalInc (cfg : Config) : Nat := cfg.incDay * cfg.days.length

/-- The lab-eligible start set: for each day `d`, the slot indices
`range(d*inc_day, d*inc_day + inc_day - 2)` (offsets `0 .. inc_day-3`). -/
def Config.labStarts (cfg : Config) : List Nat :=
  (List.range cfg.days.length).flatMap fun d =>
    (List.range (cfg.incDay - 2)).map fun o => d * cfg.incDay + o

/-- The `has_lab` test used by the partitioner (`course.get('unitsLab', 0) > 0`). -/
def hasLab (c : Course) : Prop := 0 < c.unitsLab

instance (c : Course) : Decidable (hasLab c) := by unfold hasLab; infer_instance

/-- The complexity score
`yearLevel*1000 + (unitsLecture + unitsLab*2)*100 + unitsLab*50 + blocks*10`. -/
def priorityScore (c : Course) : Nat :=
  c.yearLevel * 1000 + (c.unitsLecture + c.unitsLab * 2) * 100 +
    c.unitsLab * 50 + c.blocks * 10

/-- The phase assignment of `prioritize_and_partition_courses`: the `if`
chain, with Python's `A and B and C or (D and E)` parsed as
`(A ∧ B ∧ C) ∨ (D ∧ E)`. -/
def assignPhase (c : Course) : SchedulingPhase :=
  if c.yearLevel ≤ 1 ∧ ¬ hasLab c then .PHASE_1_FLEXIBLE
  else if (2 ≤ c.yearLevel ∧ c.yearLevel < 4 ∧ hasLab c) ∨ (¬ hasLab c ∧ 2 ≤ c.yearLevel) then
    .PHASE_2_REGULAR
  else .PHASE_3_CRITICAL

/-- The scored triples `(phase, priority_score, course)` accumulated by the
partitioner before sorting. -/
def scoredCourses (courses : List Course) : List (SchedulingPhase × Nat × Course) :=
  courses.map fun c => (assignPhase c, priorityScore c, c)

/-- The sort key order of `scored_courses.sort(key=lambda x: (x[0].value, -x[1]))`:
phase value ascending, then score descending. -/
def scoredLE (a b : SchedulingPhase × Nat × Course) : Prop :=
  a.1.value < b.1.value ∨ (a.1.value = b.1.value ∧ b.2.1 ≤ a.2.1)

instance : DecidableRel scoredLE := by unfold scoredLE; exact fun a b => inferInstance

instance : IsTotal (SchedulingPhase × Nat × Course) scoredLE :=
  ⟨by intro a b; unfold scoredLE; omega⟩

instance : IsTrans (SchedulingPhase × Nat × Course) scoredLE :=
  ⟨by intro a b c; unfold scoredLE; omega⟩

/-- `prioritize_and_partition_courses`: score, stably sort by
`(phase.value, -score)`, drop the score.  Python's `list.sort` is a stable
ascending sort, modelled by `List.insertionSort` (which is stable). -/
def prioritizeAndPartitionCourses (courses : List Course) :
    List (SchedulingPhase × Course) :=
  ((scoredCourses courses).insertionSort scoredLE).map fun x => (x.1, x.2.2)

/-- The sortedness property claimed for the partitioner output: phase value
ascending, then priority score descending. -/
def partitionedLE (a b : SchedulingPhase × Course) : Prop :=
  a.1.value < b.1.value ∨ (a.1.value = b.1.value ∧ priorityScore b.2 ≤ priorityScore a.2)

/-- Membership test of a slot in an occupied-slot collection (Python sets are
modelled by lists up to membership). -/
def slotsFree (occupied : List Nat) (start duration : Nat) : Prop :=
  ∀ t ∈ List.range' start duration, t ∉ occupied

instance (occupied : List Nat) (start duration : Nat) :
    Decidable (slotsFree occupied start duration) := by
  unfold slotsFree; infer_instance

/-- The scan loop of `get_available_time_slots`: walk the search space in
order, keep each start whose needed slots avoid `occupied`, and break as soon
as the collected list reaches `max_slots` (the check runs after each append,
so `max_slots = 0` still yields one element). -/
def availLoop (occupied : List Nat) (duration : Nat) :
    Nat → List Nat → List Nat
  | _, [] => []
  | maxSlots, s :: rest =>
    if slotsFree occupied s duration then
      if maxSlots ≤ 1 then [s]
      else s :: availLoop occupied duration (maxSlots - 1) rest
    else availLoop occupied duration maxSlots rest

/-- The search space scanned by `get_available_time_slots`:
`lab_starts` for labs, else `range(total_inc - duration + 1)` (empty when the
duration exceeds the horizon, as in Python). -/
def searchSpace (cfg : Config) (duration : Nat) (isLab : Bool) : List Nat :=
  if isLab then cfg.labStarts else List.range (cfg.totalInc + 1 - duration)

/-- `get_available_time_slots(section_key, duration, is_lab, max_slots)`,
with the section's occupied-slot set passed explicitly. -/
def getAvailableTimeSlots (cfg : Config) (occupied : List Nat)
    (duration : Nat) (isLab : Bool) (maxSlots : Nat) : List Nat :=
  availLoop occupied duration maxSlots (searchSpace cfg duration isLab)

/-- Python `int()` truncation toward zero on an exact rational. -/
def intTrunc (q : ℚ) : ℤ := if 0 ≤ q then ⌊q⌋ else ⌈q⌉

/-- `get_phase_timeout`: base times `[150, 200, 700]` indexed by
`phase_num - 1` when `phase_num ≤ 3` (Python's `base_times[-1]` for the
unreachable `phase_num = 0`), else `300`; the result is
`int(timeout * phase_difficulty)`. -/
def getPhaseTimeout (phaseNum : Nat) (phaseDifficulty : ℚ) : ℤ :=
  let base : ℤ :=
    match phaseNum with
    | 0 => 700
    | 1 => 150
    | 2 => 200
    | 3 => 700
    | _ => 300
  intTrunc ((base : ℚ) * phaseDifficulty)

/-- `calculate_phase_difficulty`: `clamp((avg_units/5) * (avg_blocks/1.5), 0.5, 2.0)`
with `avg_units = mean(unitsLecture + unitsLab*2)` and `avg_blocks = mean(blocks)`;
`0.5` for an empty phase. -/
def calculatePhaseDifficulty (phaseCourses : List Course) : ℚ :=
  if phaseCourses = [] then 1/2
  else
    let totalUnits : ℚ := ((phaseCourses.map fun c => c.unitsLecture + c.unitsLab * 2).sum : Nat)
    let totalBlocks : ℚ := ((phaseCourses.map fun c => c.blocks).sum : Nat)
    let avgUnits := totalUnits / (phaseCourses.length : ℚ)
    let avgBlocks := totalBlocks / (phaseCourses.length : ℚ)
    max (1/2) (min 2 ((avgUnits / 5) * (avgBlocks / (3/2))))

/-- The optimize-attempt budget of `solve_phase`: `int(timeout * 1.5)`. -/
def optimizeAttemptTimeout (timeout : ℤ) : ℤ := intTrunc ((timeout : ℚ) * (3/2))

/-- Section keys `(program, year, block_letter)`. -/
abbrev SectionKey := String × Nat × Char

/-- One weekly meeting's decision variables, as created by
`create_session_type`: identifying fields, the schedule id, the group tag
(one per `create_session_type` call, used for the per-block day caps) and the
start-variable domain handed to `NewIntVarFromDomain`. -/
structure Session where
  id : Nat
  grp : Nat
  code : String
  title : String
  prog : String
  yr : Nat
  blk : Char
  kind : SessType
  duration : Nat
  domain : List Nat
deriving DecidableEq, Repr

/-- A scheduled event as extracted by `extract_phase_solution` (scheduling
fields only; the formatted period, day name, room name and display code are
derived presentation values not referenced by any claim). -/
structure Event where
  scheduleId : Nat
  baseCode : String
  title : String
  program : String
  year : Nat
  block : Char
  kind : SessType
  startSlot : Nat
  duration : Nat
  roomIdx : Nat
deriving DecidableEq, Repr

/-- The `(program, year, block)` key of an event. -/
def Event.sectionKey (e : Event) : SectionKey := (e.program, e.year, e.block)

/-- The slot set `{_start_slot .. _start_slot + _duration - 1}` of an event. -/
def Event.slots (e : Event) : List Nat := List.range' e.startSlot e.duration

/-- The section occupancy ledger entry for a key, as accumulated by
`update_occupancy_from_schedule` over all prior events. -/
def sectionOccupied (prior : List Event) (sk : SectionKey) : List Nat :=
  (prior.filter fun e => e.sectionKey = sk).flatMap Event.slots

/-- One `create_session_type` call: compute the candidate starts (capped at
1000), fall back to the full search space when none survive the occupancy
filter, fail if even that is empty, and otherwise create `units` sessions
whose domain is the first 200 candidates, advancing the schedule-id counter
once per session.  Returns the sessions, the new counter, and whether the
fallback was used. -/
def createSessionType (cfg : Config) (prior : List Event) (counter : Nat)
    (code prog : String) (yr : Nat) (blk : Char) (kind : SessType)
    (units duration : Nat) (title : String) (isLab : Bool) :
    Option (List Session × Nat × Bool) :=
  let availableStarts :=
    getAvailableTimeSlots cfg (sectionOccupied prior (prog, yr, blk)) duration isLab 1000
  let starts := if availableStarts = [] then searchSpace cfg duration isLab else availableStarts
  if starts = [] then none
  else
    let domainValues := starts.take 200
    some ((List.range units).map fun i =>
      { id := counter + i, grp := counter, code := code, title := title, prog := prog,
        yr := yr, blk := blk, kind := kind, duration := duration, domain := domainValues },
      counter + units, decide (availableStarts = []))

/-- The body of `create_course_sessions` for one block `b` (letter
`chr(ord('A') + b)`): lecture meetings of duration 2 when `unitsLecture > 0`,
then `unitsLab * 2` lab meetings of duration 3 when `unitsLab > 0`. -/
def createBlockSessions (cfg : Config) (prior : List Event) (course : Course)
    (counter b : Nat) : Option (List Session × Nat × Bool) :=
  let blk := Char.ofNat (65 + b)
  let lecPart :=
    if 0 < course.unitsLecture then
      createSessionType cfg prior counter course.courseCode course.program
        course.yearLevel blk .lecture course.unitsLecture 2 course.title false
    else some ([], counter, false)
  match lecPart with
  | none => none
  | some (s1, c1, f1) =>
    let labPart :=
      if 0 < course.unitsLab then
        createSessionType cfg prior c1 course.courseCode course.program
          course.yearLevel blk .lab (course.unitsLab * 2) 3 course.title true
      else some ([], c1, false)
    match labPart with
    | none => none
    | some (s2, c2, f2) => some (s1 ++ s2, c2, f1 || f2)

/-- The block loop of `create_course_sessions` over the given block indices. -/
def createBlocksFrom (cfg : Config) (prior : List Event) (course : Course) :
    List Nat → Nat → Option (List Session × Nat × Bool)
  | [], counter => some ([], counter, false)
  | b :: bs, counter =>
    match createBlockSessions cfg prior course counter b with
    | none => none
    | some (s1, c1, f1) =>
      match createBlocksFrom cfg prior course bs c1 with
      | none => none
      | some (s2, c2, f2) => some (s1 ++ s2, c2, f1 || f2)

/-- `create_course_sessions`: all blocks `0 .. blocks-1` of one course. -/
def createCourseSessions (cfg : Config) (prior : List Event) (course : Course)
    (counter : Nat) : Option (List Session × Nat × Bool) :=
  createBlocksFrom cfg prior course (List.range course.blocks) counter

/-- The course loop of `_solve_phase_attempt`: build every course of the
phase, propagating builder failure. -/
def buildPhaseSessions (cfg : Config) (prior : List Event) :
    List Course → Nat → Option (List Session × Nat × Bool)
  | [], counter => some ([], counter, false)
  | course :: rest, counter =>
    match createCourseSessions cfg prior course counter with
    | none => none
    | some (s1, c1, f1) =>
      match buildPhaseSessions cfg prior rest c1 with
      | none => none
      | some (s2, c2, f2) => some (s1 ++ s2, c2, f1 || f2)

/-- Disjointness of the slot intervals `[_start_slot, _start_slot+_duration)`
of two events. -/
def IntervalsDisjoint (e1 e2 : Event) : Prop :=
  e1.startSlot + e1.duration ≤ e2.startSlot ∨ e2.startSlot + e2.duration ≤ e1.startSlot

/-- Pointwise consistency of an extracted event with its session spec,
together with the per-variable constraints of the model: domain membership,
the end-variable upper bound `total_inc`, the day-variable constraints
`day*inc_day ≤ start < (day+1)*inc_day` for some `day < len(days)`, and the
room-variable bound. -/
def SessionMatches (cfg : Config) (s : Session) (e : Event) : Prop :=
  e.scheduleId = s.id ∧ e.baseCode = s.code ∧ e.title = s.title ∧
  e.program = s.prog ∧ e.year = s.yr ∧ e.block = s.blk ∧ e.kind = s.kind ∧
  e.duration = s.duration ∧
  e.startSlot ∈ s.domain ∧
  e.startSlot + e.duration ≤ cfg.totalInc ∧
  (∃ d ∈ List.range cfg.days.length,
    d * cfg.incDay ≤ e.startSlot ∧ e.startSlot < (d + 1) * cfg.incDay) ∧
  e.roomIdx < (cfg.rooms s.kind).length

/-- Room exclusivity between two events: same `(room_kind, room_idx)` forces
disjoint intervals (the `NoOverlap` on a room bucket). -/
def RoomExclusive (e1 e2 : Event) : Prop :=
  e1.kind = e2.kind → e1.roomIdx = e2.roomIdx → IntervalsDisjoint e1 e2

/-- Section exclusivity between two events: same section key forces disjoint
intervals (the `NoOverlap` on a section bucket). -/
def SectionExclusive (e1 e2 : Event) : Prop :=
  e1.sectionKey = e2.sectionKey → IntervalsDisjoint e1 e2

/-- The grouping key of `add_room_consistency`. -/
def Event.consistencyKey (e : Event) : String × String × Nat × Char × SessType :=
  (e.baseCode, e.program, e.year, e.block, e.kind)

/-- Room consistency: all sessions of one `(code, program, year, block, kind)`
group share one room. -/
def RoomConsistent (e1 e2 : Event) : Prop :=
  e1.consistencyKey = e2.consistencyKey → e1.roomIdx = e2.roomIdx

/-- The per-day cap of `add_block_day_constraints`. -/
def maxPerDay : SessType → Nat
  | .lecture => 1
  | .lab => 2

/-- The value the model forces on a meeting's day variable. -/
def eventDay (cfg : Config) (e : Event) : Nat := e.startSlot / cfg.incDay

/-- The per-block day caps: for every `create_session_type` call (identified
by the session group tag) that created more than one meeting, at most
`max_per_day` of its meetings fall on any one day. -/
def DayCapsOK (cfg : Config) (paired : List (Session × Event)) : Prop :=
  ∀ g ∈ paired.map fun se => se.1.grp,
    1 < (paired.filter fun se => se.1.grp = g).length →
    ∀ se ∈ paired.filter fun se => se.1.grp = g, ∀ d ∈ List.range cfg.days.length,
      ((paired.filter fun se => se.1.grp = g).filter
        fun se2 => eventDay cfg se2.2 = d).length ≤ maxPerDay se.1.kind

instance (e1 e2 : Event) : Decidable (IntervalsDisjoint e1 e2) := by
  unfold IntervalsDisjoint; infer_instance

instance (e1 e2 : Event) : Decidable (RoomExclusive e1 e2) := by
  unfold RoomExclusive; infer_instance

instance (e1 e2 : Event) : Decidable (SectionExclusive e1 e2) := by
  unfold SectionExclusive Event.sectionKey; infer_instance

instance (e1 e2 : Event) : Decidable (RoomConsistent e1 e2) := by
  unfold RoomConsistent Event.consistencyKey; infer_instance

instance (cfg : Config) (s : Session) (e : Event) :
    Decidable (SessionMatches cfg s e) := by
  unfold SessionMatches; infer_instance

instance (cfg : Config) (paired : List (Session × Event)) :
    Decidable (DayCapsOK cfg paired) := by
  unfold DayCapsOK; infer_instance

instance forall2Decidable {α β : Type} {R : α → β → Prop} [∀ a b, Decidable (R a b)] :
    ∀ (l₁ : List α) (l₂ : List β), Decidable (List.Forall₂ R l₁ l₂)
  | [], [] => isTrue List.Forall₂.nil
  | [], _ :: _ => isFalse fun h => by cases h
  | _ :: _, [] => isFalse fun h => by cases h
  | a :: l₁, b :: l₂ =>
    match inferInstanceAs (Decidable (R a b)), forall2Decidable l₁ l₂ with
    | isTrue h1, isTrue h2 => isTrue (List.Forall₂.cons h1 h2)
    | isFalse h1, _ => isFalse fun h => h1 (by cases h; assumption)
    | _, isFalse h2 => isFalse fun h => h2 (by cases h; assumption)

/-- A feasible solver solution for one phase attempt, as read back by
`extract_phase_solution`: pointwise consistent with the built sessions and
satisfying every hard constraint posted on the model, including no-overlap
against the fixed intervals carried forward from `global_schedule`. -/
def ExtractedFrom (cfg : Config) (prior : List Event)
    (sessions : List Session) (events : List Event) : Prop :=
  List.Forall₂ (SessionMatches cfg) sessions events ∧
  events.Pairwise SectionExclusive ∧
  events.Pairwise RoomExclusive ∧
  (∀ e ∈ events, ∀ p ∈ prior, e.kind = p.kind → e.roomIdx = p.roomIdx →
    IntervalsDisjoint e p) ∧
  events.Pairwise RoomConsistent ∧
  DayCapsOK cfg (sessions.zip events)

instance (cfg : Config) (prior : List Event) (sessions : List Session)
    (events : List Event) : Decidable (ExtractedFrom cfg prior sessions events) := by
  unfold ExtractedFrom; infer_instance

/-- One phase of `solve` after another: each step's sessions were built either
directly (feasibility attempt solved) or after one discarded feasibility
build that advanced the schedule-id counter (the optimize retry of
`solve_phase`); the extracted events are appended to the global schedule seen
by later phases.  Each segment records its events and whether the builder's
domain fallback was used. -/
inductive RunSteps (cfg : Config) :
    List (List Course) → List Event → Nat → List (List Event × Bool) → Prop where
  | nil : ∀ sched counter, RunSteps cfg [] sched counter []
  | step : ∀ phaseCourses rest sched counter counter₀ sessions counter' fellBack events segs,
      (counter₀ = counter ∨
        ∃ s₀ f₀, buildPhaseSessions cfg sched phaseCourses counter = some (s₀, counter₀, f₀)) →
      buildPhaseSessions cfg sched phaseCourses counter₀ = some (sessions, counter', fellBack) →
      ExtractedFrom cfg sched sessions events →
      RunSteps cfg rest (sched ++ events) counter' segs →
      RunSteps cfg (phaseCourses :: rest) sched counter ((events, fellBack) :: segs)

/-- The phase grouping of `solve`: group the partitioned courses by phase and
iterate by ascending phase value; only phases that received courses appear. -/
def phaseLists (courses : List Course) : List (List Course) :=
  let parts := prioritizeAndPartitionCourses courses
  ([SchedulingPhase.PHASE_1_FLEXIBLE, .PHASE_2_REGULAR, .PHASE_3_CRITICAL].map fun p =>
    (parts.filter fun x => x.1 = p).map Prod.snd).filter fun l => !l.isEmpty

/-- A complete successful run of the pipeline: starting from the empty global
schedule and `schedule_id = 1`, every phase solves; the final schedule is the
concatenation of the phase segments (the closing sort of `solve` permutes it
and strips internal fields, neither of which affects any claimed property). -/
def ValidRun (cfg : Config) (courses : List Course) (finalSchedule : List Event) : Prop :=
  ∃ segs, RunSteps cfg (phaseLists courses) [] 1 segs ∧
    finalSchedule = (segs.map Prod.fst).flatten

/-! ### Progress channel model -/

/-- The build-loop progress writes of one `_solve_phase_attempt` for phase
`phaseNum` of `totalPhases` with `n` courses: for `idx = 0 .. n-1` the value
`start + int((idx+1)/n * (end-start))` with
`start = 50 + (phaseNum-1)*40 // totalPhases` and
`end = 50 + phaseNum*40 // totalPhases` (float arithmetic idealized to exact
integer arithmetic). -/
def attemptWrites (totalPhases phaseNum n : Nat) : List ℤ :=
  (List.range n).map fun idx =>
    ((50 + (phaseNum - 1) * 40 / totalPhases +
      (idx + 1) * ((50 + phaseNum * 40 / totalPhases) - (50 + (phaseNum - 1) * 40 / totalPhases)) / n : Nat) : ℤ)

/-- The progress writes of one phase on a successful run: the build writes of
the feasibility attempt, repeated once more when the optimize attempt had to
rebuild the model (`retried`). -/
def phaseWrites (totalPhases phaseNum n : Nat) (retried : Bool) : List ℤ :=
  attemptWrites totalPhases phaseNum n ++
    (if retried then attemptWrites totalPhases phaseNum n else [])

/-- The concatenated per-phase writes, phases numbered from `phaseNum`. -/
def phasesWrites (totalPhases : Nat) : Nat → List (Nat × Bool) → List ℤ
  | _, [] => []
  | phaseNum, (n, retried) :: rest =>
    phaseWrites totalPhases phaseNum n retried ++ phasesWrites totalPhases (phaseNum + 1) rest

/-- The full progress-channel write sequence of a successful run: the
`load_data` checkpoints 5..50, the 52 at the head of `solve`, the per-phase
build writes (each phase described by its course count and whether the
optimize retry ran), then 95 and the final 100 of `generate_schedule`. -/
def progressTrace (phases : List (Nat × Bool)) : List ℤ :=
  [5, 15, 25, 35, 45, 50, 52] ++ phasesWrites phases.length 1 phases ++ [95, 100]

/-! ### Orchestrator model -/

/-- The value returned by `solve` / `generate_schedule`: either the sentinel
string `"impossible"` or a schedule list. -/
inductive RunResult where
  | impossible : RunResult
  | schedule : List Event → RunResult
deriving DecidableEq, Repr

/-- The phase loop of `solve`: accumulate each phase's events; the first
failing phase aborts with the sentinel. -/
def solveLoop : List (Option (List Event)) → List Event → RunResult
  | [], acc => .schedule acc
  | none :: _, _ => .impossible
  | some evs :: rest, acc => solveLoop rest (acc ++ evs)

/-- The day name of an event (`self.days[day_idx]`). -/
def eventDayName (cfg : Config) (e : Event) : String := cfg.days.getD (eventDay cfg e) ""

/-- The final sort key order of `solve`:
`(self.days.index(event day), _start_slot)` ascending. -/
def finalSortLE (cfg : Config) (e1 e2 : Event) : Prop :=
  cfg.days.indexOf (eventDayName cfg e1) < cfg.days.indexOf (eventDayName cfg e2) ∨
    (cfg.days.indexOf (eventDayName cfg e1) = cfg.days.indexOf (eventDayName cfg e2) ∧
      e1.startSlot ≤ e2.startSlot)

instance (cfg : Config) : DecidableRel (finalSortLE cfg) := by
  unfold finalSortLE; exact fun a b => inferInstance

/-- The closing stable sort of `solve`. -/
def finalSort (cfg : Config) (events : List Event) : List Event :=
  events.insertionSort (finalSortLE cfg)

/-- `solve` as observed from outside: the returned value and its writes to
the progress channel from the 52 checkpoint on (the build-loop writes are
modelled by `progressTrace`; they never include the sentinel).  On phase
failure `-1` is written and the sentinel returned; on success the combined
schedule is sorted and 95 written. -/
def solveOrch (cfg : Config) (outcomes : List (Option (List Event))) :
    RunResult × List ℤ :=
  match solveLoop outcomes [] with
  | .impossible => (.impossible, [52, -1])
  | .schedule l => (.schedule (finalSort cfg l), [52, 95])

/-- `generate_schedule`: a raising catalog loader is caught, `-1` written and
the sentinel returned (the checkpoint writes before the exception are not
modelled; no claim depends on them); otherwise `solve` runs, and on success
the final 100 is written. -/
def generateScheduleRun (cfg : Config) (loadOk : Bool)
    (outcomes : List (Option (List Event))) : RunResult × List ℤ :=
  if loadOk then
    match solveOrch cfg outcomes with
    | (.impossible, w) => (.impossible, w)
    | (.schedule s, w) => (.schedule s, w ++ [100])
  else (.impossible, [-1])

/-- The result dictionary `{e['schedule_id']: e for e in schedule}`. -/
def scheduleDict (schedule : List Event) : List (Nat × Event) :=
  schedule.map fun e => (e.scheduleId, e)

/-- Association-list lookup (with distinct keys this is exactly Python dict
access). -/
def lookupFirst (k : Nat) : List (Nat × Event) → Option Event
  | [] => none
  | (k', e) :: rest => if k' = k then some e else lookupFirst k rest

/-- Sessions built without the domain fallback have start domains that avoid
the section's prior occupancy. -/
def SessionDomainFree (prior : List Event) (s : Session) : Prop :=
  ∀ x ∈ s.domain, slotsFree (sectionOccupied prior (s.prog, s.yr, s.blk)) x s.duration

/-! ### Concrete scenarios used by witnesses and counterexamples -/

/-- Minimal catalog: one lecture room, one lab room, hours 8-9 (two slots per
day), a single day. -/
def cfgA : Config :=
  { lectureRooms := ["L1"], labRooms := ["B1"], startT := 8, endT := 9, days := ["Mon"] }

/-- A first-year lecture-only course. -/
def courseA : Course :=
  { courseCode := "CS101", title := "Intro", program := "BSCS", yearLevel := 1,
    unitsLecture := 1, unitsLab := 0, blocks := 1 }

/-- The single session the builder creates for `courseA` under `cfgA`. -/
def sessionA : Session :=
  { id := 1, grp := 1, code := "CS101", title := "Intro", prog := "BSCS", yr := 1,
    blk := 'A', kind := .lecture, duration := 2, domain := [0] }

/-- The single event of the `cfgA` run. -/
def eventA : Event :=
  { scheduleId := 1, baseCode := "CS101", title := "Intro", program := "BSCS", year := 1,
    block := 'A', kind := .lecture, startSlot := 0, duration := 2, roomIdx := 0 }

/-- Catalog for the cross-phase section-overlap scenario: hours 8-10 (four
slots per day), two days. -/
def cfgB : Config :=
  { lectureRooms := ["L1"], labRooms := ["B1"], startT := 8, endT := 10,
    days := ["Mon", "Tue"] }

/-- Phase-1 course: first-year, two lecture meetings. -/
def courseB1 : Course :=
  { courseCode := "CS101", title := "Intro", program := "BSCS", yearLevel := 1,
    unitsLecture := 2, unitsLab := 0, blocks := 1 }

/-- Phase-3 course: first-year lab course, same section `(BSCS, 1, 'A')`. -/
def courseB2 : Course :=
  { courseCode := "CS150", title := "Lab", program := "BSCS", yearLevel := 1,
    unitsLecture := 0, unitsLab := 1, blocks := 1 }

/-- Phase-1 events of the `cfgB` run: lectures at slots 1 and 5. -/
def eventB1a : Event :=
  { scheduleId := 1, baseCode := "CS101", title := "Intro", program := "BSCS", year := 1,
    block := 'A', kind := .lecture, startSlot := 1, duration := 2, roomIdx := 0 }

def eventB1b : Event :=
  { scheduleId := 2, baseCode := "CS101", title := "Intro", program := "BSCS", year := 1,
    block := 'A', kind := .lecture, startSlot := 5, duration := 2, roomIdx := 0 }

/-- Phase-3 events of the `cfgB` run: labs at slots 0 and 4, chosen by the
solver from the fallback domain after the occupancy filter emptied it. -/
def eventB2a : Event :=
  { scheduleId := 3, baseCode := "CS150", title := "Lab", program := "BSCS", year := 1,
    block := 'A', kind := .lab, startSlot := 0, duration := 3, roomIdx := 0 }

def eventB2b : Event :=
  { scheduleId := 4, baseCode := "CS150", title := "Lab", program := "BSCS", year := 1,
    block := 'A', kind := .lab, startSlot := 4, duration := 3, roomIdx := 0 }

/-- Catalog for the lab-count scenario: hours 8-11 (six slots), one day. -/
def cfgC : Config :=
  { lectureRooms := ["L1"], labRooms := ["B1"], startT := 8, endT := 11, days := ["Mon"] }

/-- A course with a single lab unit (and no lectures). -/
def courseC : Course :=
  { courseCode := "CS150", title := "Lab", program := "BSCS", yearLevel := 1,
    unitsLecture := 0, unitsLab := 1, blocks := 1 }

/-- The two lab events the single lab unit of `courseC` produces. -/
def eventCa : Event :=
  { scheduleId := 1, baseCode := "CS150", title := "Lab", program := "BSCS", year := 1,
    block := 'A', kind := .lab, startSlot := 0, duration := 3, roomIdx := 0 }

def eventCb : Event :=
  { scheduleId := 2, baseCode := "CS150", title := "Lab", program := "BSCS", year := 1,
    block := 'A', kind := .lab, startSlot := 3, duration := 3, roomIdx := 0 }

/-- Catalog for the day-boundary scenario: hours 8-9 (two slots per day), two
days. -/
def cfgD : Config :=
  { lectureRooms := ["L1"], labRooms := ["B1"], startT := 8, endT := 9,
    days := ["Mon", "Tue"] }

/-- A lecture admitted by the model that starts on the last slot of Monday
and runs into Tuesday. -/
def eventD : Event :=
  { scheduleId := 1, baseCode := "CS101", title := "Intro", program := "BSCS", year := 1,
    block := 'A', kind := .lecture, startSlot := 1, duration := 2, roomIdx := 0 }

/-- A phase-2 course whose difficulty evaluates to `8/15`. -/
def courseG : Course :=
  { courseCode := "MA201", title := "Calc", program := "BSCS", yearLevel := 2,
    unitsLecture := 4, unitsLab := 0, blocks := 1 }

/-- The two lecture sessions built for `courseB1` under `cfgB`. -/
def sessionsB1 : List Session :=
  [{ id := 1, grp := 1, code := "CS101", title := "Intro", prog := "BSCS", yr := 1,
     blk := 'A', kind := .lecture, duration := 2, domain := [0, 1, 2, 3, 4, 5, 6] },
   { id := 2, grp := 1, code := "CS101", title := "Intro", prog := "BSCS", yr := 1,
     blk := 'A', kind := .lecture, duration := 2, domain := [0, 1, 2, 3, 4, 5, 6] }]

/-- The two lab sessions built for `courseB2` in phase 3 of the `cfgB` run;
their domain is the fallback `lab_starts` because the occupancy filter left
nothing. -/
def sessionsB2 : List Session :=
  [{ id := 3, grp := 3, code := "CS150", title := "Lab", prog := "BSCS", yr := 1,
     blk := 'A', kind := .lab, duration := 3, domain := [0, 1, 4, 5] },
   { id := 4, grp := 3, code := "CS150", title := "Lab", prog := "BSCS", yr := 1,
     blk := 'A', kind := .lab, duration := 3, domain := [0, 1, 4, 5] }]

/-- The two lab sessions built for `courseC` under `cfgC`. -/
def sessionsC : List Session :=
  [{ id := 1, grp := 1, code := "CS150", title := "Lab", prog := "BSCS", yr := 1,
     blk := 'A', kind := .lab, duration := 3, domain := [0, 1, 2, 3] },
   { id := 2, grp := 1, code := "CS150", title := "Lab", prog := "BSCS", yr := 1,
     blk := 'A', kind := .lab, duration := 3, domain := [0, 1, 2, 3] }]

/-- The single lecture session built for `courseA` under `cfgD`. -/
def sessionD : Session :=
  { id := 1, grp := 1, code := "CS101", title := "Intro", prog := "BSCS", yr := 1,
    blk := 'A', kind := .lecture, duration := 2, domain := [0, 1, 2] }

/-- Session-id ordering used by the uniqueness arguments. -/
def idLT (s1 s2 : Session) : Prop := s1.id < s2.id

/-- Number of events of one `(base code, block letter, kind)` in a schedule. -/
def countKind (l : List Event) (code : String) (blk : Char) (k : SessType) : Nat :=
  l.countP fun e => e.baseCode = code ∧ e.block = blk ∧ e.kind = k

/-- Number of sessions of one `(code, block letter, kind)`. -/
def countKindS (l : List Session) (code : String) (blk : Char) (k : SessType) : Nat :=
  l.countP fun s => s.code = code ∧ s.blk = blk ∧ s.kind = k

/-- Meetings per block the builder creates for a course and kind:
`units_lecture` lectures of duration 2, `units_lab * 2` labs of duration 3. -/
def unitsForKind (course : Course) : SessType → Nat
  | .lecture => course.unitsLecture
  | .lab => course.unitsLab * 2

/-- The number of `(code, blk, k)` sessions one course contributes to the
phase that schedules it. -/
def courseContribution (course : Course) (code : String) (blk : Char)
    (k : SessType) : Nat :=
  if course.courseCode = code then
    ((List.range course.blocks).countP fun b => Char.ofNat (65 + b) = blk) *
      unitsForKind course k
  else 0

/-! ## Theorems -/

/-! ### C5: the course partitioner -/

theorem mem_prioritizeAndPartitionCourses {courses : List Course}
    {x : SchedulingPhase × Course} (hx : x ∈ prioritizeAndPartitionCourses courses) :
    ∃ c ∈ courses, x = (assignPhase c, c) := by
  unfold prioritizeAndPartitionCourses at hx
  obtain ⟨y, hy, rfl⟩ := List.mem_map.1 hx
  rw [List.mem_insertionSort] at hy
  obtain ⟨c, hc, rfl⟩ := List.mem_map.1 hy
  exact ⟨c, hc, rfl⟩

theorem assignPhase_eq_p1 (c : Course) :
    assignPhase c = .PHASE_1_FLEXIBLE ↔ c.yearLevel ≤ 1 ∧ c.unitsLab = 0 := by
  unfold assignPhase hasLab
  split_ifs with h1 h2 <;> simp_all

theorem assignPhase_eq_p2 (c : Course) :
    assignPhase c = .PHASE_2_REGULAR ↔
      ((2 ≤ c.yearLevel ∧ c.yearLevel < 4 ∧ 0 < c.unitsLab) ∨
        (c.unitsLab = 0 ∧ 2 ≤ c.yearLevel)) := by
  unfold assignPhase hasLab
  split_ifs with h1 h2 <;> simp_all
  omega

theorem assignPhase_eq_p3 (c : Course) :
    assignPhase c = .PHASE_3_CRITICAL ↔
      ¬(c.yearLevel ≤ 1 ∧ c.unitsLab = 0) ∧
        ¬((2 ≤ c.yearLevel ∧ c.yearLevel < 4 ∧ 0 < c.unitsLab) ∨
          (c.unitsLab = 0 ∧ 2 ≤ c.yearLevel)) := by
  unfold assignPhase hasLab
  split_ifs with h1 h2 <;> simp_all

theorem scored_snd_eq_priorityScore {courses : List Course}
    {x : SchedulingPhase × Nat × Course}
    (hx : x ∈ (scoredCourses courses).insertionSort scoredLE) :
    x.2.1 = priorityScore x.2.2 := by
  rw [List.mem_insertionSort] at hx
  obtain ⟨c, _, rfl⟩ := List.mem_map.1 hx
  rfl

/-- C5.  The partitioner assigns `P1_FLEXIBLE` exactly when `year_level ≤ 1`
and `units_lab = 0`, `P2_REGULAR` exactly when `(2 ≤ year_level < 4 ∧
units_lab > 0) ∨ (units_lab = 0 ∧ year_level ≥ 2)`, `P3_CRITICAL` otherwise;
the output pairs each course with its phase, is a permutation of the input,
and is ordered by phase value ascending then priority score
`year_level·1000 + (units_lecture + 2·units_lab)·100 + units_lab·50 + blocks·10`
descending. -/
theorem c5_course_partitioner (courses : List Course) :
    (∀ x ∈ prioritizeAndPartitionCourses courses,
      x.1 = assignPhase x.2 ∧
      (x.1 = .PHASE_1_FLEXIBLE ↔ x.2.yearLevel ≤ 1 ∧ x.2.unitsLab = 0) ∧
      (x.1 = .PHASE_2_REGULAR ↔
        ((2 ≤ x.2.yearLevel ∧ x.2.yearLevel < 4 ∧ 0 < x.2.unitsLab) ∨
          (x.2.unitsLab = 0 ∧ 2 ≤ x.2.yearLevel))) ∧
      (x.1 = .PHASE_3_CRITICAL ↔
        ¬(x.2.yearLevel ≤ 1 ∧ x.2.unitsLab = 0) ∧
          ¬((2 ≤ x.2.yearLevel ∧ x.2.yearLevel < 4 ∧ 0 < x.2.unitsLab) ∨
            (x.2.unitsLab = 0 ∧ 2 ≤ x.2.yearLevel)))) ∧
    ((prioritizeAndPartitionCourses courses).map Prod.snd).Perm courses ∧
    (prioritizeAndPartitionCourses courses).Pairwise partitionedLE := by
  refine ⟨?_, ?_, ?_⟩
  · intro x hx
    obtain ⟨c, _, rfl⟩ := mem_prioritizeAndPartitionCourses hx
    exact ⟨rfl, assignPhase_eq_p1 c, assignPhase_eq_p2 c, assignPhase_eq_p3 c⟩
  · have h1 : (prioritizeAndPartitionCourses courses).map Prod.snd =
        ((scoredCourses courses).insertionSort scoredLE).map fun x => x.2.2 := by
      unfold prioritizeAndPartitionCourses
      rw [List.map_map]
      rfl
    have h2 := (List.perm_insertionSort scoredLE (scoredCourses courses)).map
      fun x : SchedulingPhase × Nat × Course => x.2.2
    have h3 : (scoredCourses courses).map (fun x => x.2.2) = courses := by
      unfold scoredCourses
      rw [List.map_map]
      exact List.map_id courses
    rw [h1]
    rw [h3] at h2
    exact h2
  · unfold prioritizeAndPartitionCourses
    rw [List.pairwise_map]
    have hs := List.sorted_insertionSort scoredLE (scoredCourses courses)
    refine List.Pairwise.imp_of_mem ?_ hs
    intro a b ha hb hab
    have ha2 := scored_snd_eq_priorityScore ha
    have hb2 := scored_snd_eq_priorityScore hb
    unfold scoredLE at hab
    unfold partitionedLE
    dsimp only
    omega

/-! ### C6: available section starts -/

theorem availLoop_eq_take_filter (occupied : List Nat) (duration : Nat) :
    ∀ (space : List Nat) (cap : Nat), 1 ≤ cap →
      availLoop occupied duration cap space =
        (space.filter fun s => slotsFree occupied s duration).take cap := by
  intro space
  induction space with
  | nil => intro cap _; simp [availLoop]
  | cons s rest ih =>
    intro cap hcap
    by_cases hfree : slotsFree occupied s duration
    · rw [availLoop, if_pos hfree]
      rw [List.filter_cons_of_pos (by simpa using hfree)]
      by_cases hone : cap ≤ 1
      · have : cap = 1 := by omega
        subst this
        simp
      · rw [if_neg hone, ih (cap - 1) (by omega)]
        obtain ⟨m, rfl⟩ : ∃ m, cap = m + 1 := ⟨cap - 1, by omega⟩
        simp [List.take_succ_cons]
    · rw [availLoop, if_neg hfree]
      rw [List.filter_cons_of_neg (by simpa using hfree), ih cap hcap]

theorem labStarts_sorted (cfg : Config) : cfg.labStarts.Pairwise (· < ·) := by
  unfold Config.labStarts
  rw [List.pairwise_flatMap]
  constructor
  · intro d _
    rw [List.pairwise_map]
    refine (List.pairwise_lt_range _).imp ?_
    intro a b hab
    omega
  · refine (List.pairwise_lt_range _).imp ?_
    intro d1 d2 hd x hx y hy
    obtain ⟨o1, ho1, rfl⟩ := List.mem_map.1 hx
    obtain ⟨o2, ho2, rfl⟩ := List.mem_map.1 hy
    rw [List.mem_range] at ho1 ho2
    have h1 : o1 < cfg.incDay := by omega
    calc d1 * cfg.incDay + o1 < (d1 + 1) * cfg.incDay := by
          rw [Nat.add_mul, Nat.one_mul]; omega
      _ ≤ d2 * cfg.incDay := Nat.mul_le_mul_right _ hd
      _ ≤ d2 * cfg.incDay + o2 := Nat.le_add_right _ _

theorem searchSpace_sorted (cfg : Config) (duration : Nat) (isLab : Bool) :
    (searchSpace cfg duration isLab).Pairwise (· < ·) := by
  unfold searchSpace
  cases isLab
  · simpa using List.pairwise_lt_range _
  · simpa using labStarts_sorted cfg

/-- C6 (amended).  For every occupied-slot set, duration, lab flag and cap
with `cap ≥ 1`, `get_available_time_slots` returns exactly the first `cap`
members of the search space (ascending) whose needed slots avoid the occupied
set; the result is strictly ascending; and when at most `cap` such starts
exist, all of them are returned.  (At `cap = 0` the early-exit check fires
only after the first append, so one start is returned; see the
counterexample.) -/
theorem c6_available_section_starts (cfg : Config) (occupied : List Nat)
    (duration : Nat) (isLab : Bool) (cap : Nat) (hcap : 1 ≤ cap) :
    getAvailableTimeSlots cfg occupied duration isLab cap =
      ((searchSpace cfg duration isLab).filter fun s =>
        slotsFree occupied s duration).take cap ∧
    (getAvailableTimeSlots cfg occupied duration isLab cap).Pairwise (· < ·) ∧
    (((searchSpace cfg duration isLab).filter fun s =>
        slotsFree occupied s duration).length ≤ cap →
      getAvailableTimeSlots cfg occupied duration isLab cap =
        (searchSpace cfg duration isLab).filter fun s =>
          slotsFree occupied s duration) := by
  have heq := availLoop_eq_take_filter occupied duration
    (searchSpace cfg duration isLab) cap hcap
  refine ⟨heq, ?_, ?_⟩
  · rw [getAvailableTimeSlots, heq]
    exact List.Pairwise.sublist ((List.take_sublist _ _).trans (List.filter_sublist _))
      (searchSpace_sorted cfg duration isLab)
  · intro hlen
    rw [getAvailableTimeSlots, heq, List.take_of_length_le hlen]

/-- C6 witness: with two free slots and `cap = 2`, both starts come back,
ascending, and they are all the free starts. -/
theorem c6_witness :
    1 ≤ 2 ∧
    (getAvailableTimeSlots cfgA [] 1 false 2 =
      ((searchSpace cfgA 1 false).filter fun s => slotsFree [] s 1).take 2 ∧
    (getAvailableTimeSlots cfgA [] 1 false 2).Pairwise (· < ·) ∧
    (((searchSpace cfgA 1 false).filter fun s => slotsFree [] s 1).length ≤ 2 →
      getAvailableTimeSlots cfgA [] 1 false 2 =
        (searchSpace cfgA 1 false).filter fun s => slotsFree [] s 1)) :=
  ⟨by decide, c6_available_section_starts cfgA [] 1 false 2 (by decide)⟩

/-- C6 counterexample: at `cap = 0` the function returns `[0]`, not the
claimed empty truncation. -/
theorem c6_counterexample :
    getAvailableTimeSlots cfgA [] 1 false 0 ≠
      ((searchSpace cfgA 1 false).filter fun s => slotsFree [] s 1).take 0 := by
  decide

/-! ### C7: phase timeout arithmetic -/

theorem intTrunc_of_nonneg {q : ℚ} (h : 0 ≤ q) : intTrunc q = ⌊q⌋ := by
  unfold intTrunc
  rw [if_pos h]

/-- C7 (amended).  For every phase number `p ≥ 1` and nonnegative difficulty,
the first-attempt timeout is the *truncation* `⌊base·difficulty⌋` (not the
rounding) with base `150/200/700` for `p = 1/2/3` and `300` for `p ≥ 4`, and
the optimize attempt gets `⌊timeout·1.5⌋` seconds. -/
theorem c7_phase_timeout (phaseNum : Nat) (difficulty : ℚ) (t : ℤ)
    (hp : 1 ≤ phaseNum) (hd : 0 ≤ difficulty) (ht : 0 ≤ t) :
    getPhaseTimeout phaseNum difficulty =
      ⌊((if phaseNum = 1 then (150 : ℤ) else if phaseNum = 2 then 200
        else if phaseNum = 3 then 700 else 300) : ℚ) * difficulty⌋ ∧
    optimizeAttemptTimeout t = ⌊(t : ℚ) * (3 / 2)⌋ := by
  constructor
  · unfold getPhaseTimeout
    match phaseNum, hp with
    | 1, _ => simpa using intTrunc_of_nonneg (by positivity)
    | 2, _ => simpa using intTrunc_of_nonneg (by positivity)
    | 3, _ => simpa using intTrunc_of_nonneg (by positivity)
    | (n + 4), _ =>
      simp only [show n + 4 ≠ 1 by omega, show n + 4 ≠ 2 by omega,
        show n + 4 ≠ 3 by omega, if_false]
      exact intTrunc_of_nonneg (by positivity)
  · unfold optimizeAttemptTimeout
    refine intTrunc_of_nonneg ?_
    have : (0 : ℚ) ≤ (t : ℚ) := by exact_mod_cast ht
    positivity

/-- C7 witness: at phase 1, difficulty 1, timeout 2 the amended law holds and
evaluates to 150 and 3. -/
theorem c7_witness :
    1 ≤ 1 ∧ (0 : ℚ) ≤ 1 ∧ (0 : ℤ) ≤ 2 ∧
    (getPhaseTimeout 1 1 =
      ⌊((if 1 = 1 then (150 : ℤ) else if 1 = 2 then 200
        else if 1 = 3 then 700 else 300) : ℚ) * 1⌋ ∧
    optimizeAttemptTimeout 2 = ⌊((2 : ℤ) : ℚ) * (3 / 2)⌋) :=
  ⟨le_refl 1, by norm_num, by norm_num,
    c7_phase_timeout 1 1 2 (le_refl 1) (by norm_num) (by norm_num)⟩

/-- C7 counterexample: the difficulty `8/15` is produced by a real phase
(one course with 4 lecture units, 1 block), and at phase 2 the code computes
`int(200 · 8/15) = 106` while the claimed `round(200 · 8/15)` is 107. -/
theorem c7_counterexample :
    calculatePhaseDifficulty [courseG] = 8 / 15 ∧
    getPhaseTimeout 2 (8 / 15) = 106 ∧
    getPhaseTimeout 2 (8 / 15) ≠ round ((200 : ℚ) * (8 / 15)) := by
  refine ⟨?_, ?_, ?_⟩
  · unfold calculatePhaseDifficulty courseG
    norm_num
  · unfold getPhaseTimeout intTrunc
    norm_num
  · unfold getPhaseTimeout intTrunc
    norm_num [round_eq]

/-! ### C1: room exclusivity across the whole run -/

theorem intervalsDisjoint_symm {e1 e2 : Event} (h : IntervalsDisjoint e1 e2) :
    IntervalsDisjoint e2 e1 := h.symm

theorem roomExclusive_symmetric : Symmetric RoomExclusive := by
  intro a b h hk hr
  exact intervalsDisjoint_symm (h hk.symm hr.symm)

theorem runSteps_room_pairwise {cfg : Config} {groups : List (List Course)}
    {sched : List Event} {counter : Nat} {segs : List (List Event × Bool)}
    (h : RunSteps cfg groups sched counter segs) :
    sched.Pairwise RoomExclusive →
      (sched ++ (segs.map Prod.fst).flatten).Pairwise RoomExclusive := by
  induction h with
  | nil s c => intro hs; simpa using hs
  | step pc rest sched counter c0 sessions c' fb events segs hb0 hb hex hrest ih =>
    intro hs
    have hall : (sched ++ events).Pairwise RoomExclusive := by
      rw [List.pairwise_append]
      refine ⟨hs, hex.2.2.1, ?_⟩
      intro a ha b hbmem hk hr
      exact intervalsDisjoint_symm (hex.2.2.2.1 b hbmem a ha hk.symm hr.symm)
    have hrec := ih hall
    rw [List.map_cons, List.flatten_cons, ← List.append_assoc]
    exact hrec

/-- C1.  Room exclusivity across the whole run: in any successful run, two
distinct events of the final schedule with the same `(room_kind, room_idx)`
occupy disjoint slot intervals — also across phases, where the later phase's
room bucket contains the earlier events as fixed intervals. -/
theorem c1_room_exclusivity (cfg : Config) (courses : List Course)
    (finalSchedule : List Event) (h : ValidRun cfg courses finalSchedule) :
    ∀ e1 ∈ finalSchedule, ∀ e2 ∈ finalSchedule, e1 ≠ e2 → e1.kind = e2.kind →
      e1.roomIdx = e2.roomIdx → IntervalsDisjoint e1 e2 := by
  obtain ⟨segs, hrun, rfl⟩ := h
  have hp := runSteps_room_pairwise hrun List.Pairwise.nil
  rw [List.nil_append] at hp
  intro e1 h1 e2 h2 hne
  exact hp.forall roomExclusive_symmetric h1 h2 hne

theorem runStepsA : RunSteps cfgA (phaseLists [courseA]) [] 1 [([eventA], false)] := by
  have hg : phaseLists [courseA] = [[courseA]] := by decide
  rw [hg]
  exact RunSteps.step [courseA] [] [] 1 1 [sessionA] 2 false [eventA] []
    (Or.inl rfl) (by decide) (by decide) (RunSteps.nil _ _)

theorem validRunA : ValidRun cfgA [courseA] [eventA] :=
  ⟨[([eventA], false)], runStepsA, rfl⟩

/-- C1 witness: the one-course run under `cfgA` is a valid run and satisfies
room exclusivity. -/
theorem c1_witness :
    ValidRun cfgA [courseA] [eventA] ∧
    (∀ e1 ∈ [eventA], ∀ e2 ∈ [eventA], e1 ≠ e2 → e1.kind = e2.kind →
      e1.roomIdx = e2.roomIdx → IntervalsDisjoint e1 e2) :=
  ⟨validRunA, c1_room_exclusivity cfgA [courseA] [eventA] validRunA⟩

/-! ### Builder characterization lemmas -/

theorem availLoop_mem_free (occupied : List Nat) (duration : Nat) :
    ∀ (space : List Nat) (cap x : Nat),
      x ∈ availLoop occupied duration cap space → slotsFree occupied x duration := by
  intro space
  induction space with
  | nil => intro cap x hx; simp [availLoop] at hx
  | cons s rest ih =>
    intro cap x hx
    rw [availLoop] at hx
    by_cases hfree : slotsFree occupied s duration
    · rw [if_pos hfree] at hx
      by_cases hone : cap ≤ 1
      · rw [if_pos hone] at hx
        rw [List.mem_singleton] at hx
        subst hx
        exact hfree
      · rw [if_neg hone] at hx
        rcases List.mem_cons.1 hx with rfl | hx2
        · exact hfree
        · exact ih _ _ hx2
    · rw [if_neg hfree] at hx
      exact ih _ _ hx

theorem createSessionType_spec {cfg : Config} {prior : List Event}
    {counter : Nat} {code prog : String} {yr : Nat} {blk : Char} {kind : SessType}
    {units duration : Nat} {title : String} {isLab : Bool}
    {ss : List Session} {c' : Nat} {fb : Bool}
    (h : createSessionType cfg prior counter code prog yr blk kind units duration
      title isLab = some (ss, c', fb)) :
    c' = counter + units ∧ ss.length = units ∧
    (∀ s ∈ ss, s.grp = counter ∧ s.code = code ∧ s.prog = prog ∧ s.yr = yr ∧
      s.blk = blk ∧ s.kind = kind ∧ s.duration = duration ∧
      counter ≤ s.id ∧ s.id < counter + units) ∧
    ss.Pairwise (fun s1 s2 => s1.id < s2.id) ∧
    (fb = false → ∀ s ∈ ss, ∀ x ∈ s.domain,
      slotsFree (sectionOccupied prior (prog, yr, blk)) x duration) := by
  simp only [createSessionType] at h
  by_cases hA : getAvailableTimeSlots cfg (sectionOccupied prior (prog, yr, blk))
      duration isLab 1000 = []
  · rw [if_pos hA] at h
    by_cases hS : searchSpace cfg duration isLab = []
    · rw [if_pos hS] at h
      cases h
    · rw [if_neg hS] at h
      rw [Option.some_inj, Prod.mk.injEq, Prod.mk.injEq] at h
      obtain ⟨rfl, rfl, rfl⟩ := h
      refine ⟨rfl, by simp, ?_, ?_, ?_⟩
      · intro s hs
        obtain ⟨i, hi, rfl⟩ := List.mem_map.1 hs
        rw [List.mem_range] at hi
        exact ⟨rfl, rfl, rfl, rfl, rfl, rfl, rfl,
          (by omega : counter ≤ counter + i), (by omega : counter + i < counter + units)⟩
      · rw [List.pairwise_map]
        refine (List.pairwise_lt_range _).imp ?_
        intro a b hab
        dsimp only
        omega
      · intro hfb
        rw [decide_eq_false_iff_not] at hfb
        exact absurd hA hfb
  · rw [if_neg hA] at h
    by_cases hS : getAvailableTimeSlots cfg (sectionOccupied prior (prog, yr, blk))
        duration isLab 1000 = []
    · exact absurd hS hA
    · rw [if_neg hS] at h
      rw [Option.some_inj, Prod.mk.injEq, Prod.mk.injEq] at h
      obtain ⟨rfl, rfl, rfl⟩ := h
      refine ⟨rfl, by simp, ?_, ?_, ?_⟩
      · intro s hs
        obtain ⟨i, hi, rfl⟩ := List.mem_map.1 hs
        rw [List.mem_range] at hi
        exact ⟨rfl, rfl, rfl, rfl, rfl, rfl, rfl,
          (by omega : counter ≤ counter + i), (by omega : counter + i < counter + units)⟩
      · rw [List.pairwise_map]
        refine (List.pairwise_lt_range _).imp ?_
        intro a b hab
        dsimp only
        omega
      · intro _ s hs x hx
        obtain ⟨i, hi, rfl⟩ := List.mem_map.1 hs
        dsimp only at hx
        have hx2 := List.mem_of_mem_take hx
        exact availLoop_mem_free _ _ _ _ _ hx2

theorem createBlockSessions_eq {cfg : Config} {prior : List Event} {course : Course}
    {counter b : Nat} {ss : List Session} {c' : Nat} {fb : Bool}
    (h : createBlockSessions cfg prior course counter b = some (ss, c', fb)) :
    ∃ s1 c1 f1 s2 f2,
      ss = s1 ++ s2 ∧ fb = (f1 || f2) ∧
      ((0 < course.unitsLecture ∧
          createSessionType cfg prior counter course.courseCode course.program
            course.yearLevel (Char.ofNat (65 + b)) .lecture course.unitsLecture 2
            course.title false = some (s1, c1, f1)) ∨
        (¬ 0 < course.unitsLecture ∧ s1 = [] ∧ c1 = counter ∧ f1 = false)) ∧
      ((0 < course.unitsLab ∧
          createSessionType cfg prior c1 course.courseCode course.program
            course.yearLevel (Char.ofNat (65 + b)) .lab (course.unitsLab * 2) 3
            course.title true = some (s2, c', f2)) ∨
        (¬ 0 < course.unitsLab ∧ s2 = [] ∧ c' = c1 ∧ f2 = false)) := by
  simp only [createBlockSessions] at h
  by_cases hlec : 0 < course.unitsLecture
  · rw [if_pos hlec] at h
    cases hl : createSessionType cfg prior counter course.courseCode course.program
        course.yearLevel (Char.ofNat (65 + b)) .lecture course.unitsLecture 2
        course.title false with
    | none => rw [hl] at h; simp at h
    | some v =>
      obtain ⟨s1, c1, f1⟩ := v
      rw [hl] at h
      dsimp only at h
      by_cases hlab : 0 < course.unitsLab
      · rw [if_pos hlab] at h
        cases h2 : createSessionType cfg prior c1 course.courseCode course.program
            course.yearLevel (Char.ofNat (65 + b)) .lab (course.unitsLab * 2) 3
            course.title true with
        | none => rw [h2] at h; simp at h
        | some w =>
          obtain ⟨s2, c2, f2⟩ := w
          rw [h2] at h
          dsimp only at h
          rw [Option.some_inj, Prod.mk.injEq, Prod.mk.injEq] at h
          obtain ⟨rfl, rfl, rfl⟩ := h
          exact ⟨s1, c1, f1, s2, f2, rfl, rfl, Or.inl ⟨hlec, rfl⟩, Or.inl ⟨hlab, h2⟩⟩
      · rw [if_neg hlab] at h
        dsimp only at h
        rw [Option.some_inj, Prod.mk.injEq, Prod.mk.injEq] at h
        obtain ⟨rfl, rfl, rfl⟩ := h
        exact ⟨s1, c1, f1, [], false, by simp, by simp, Or.inl ⟨hlec, rfl⟩,
          Or.inr ⟨hlab, rfl, rfl, rfl⟩⟩
  · rw [if_neg hlec] at h
    dsimp only at h
    by_cases hlab : 0 < course.unitsLab
    · rw [if_pos hlab] at h
      cases h2 : createSessionType cfg prior counter course.courseCode course.program
          course.yearLevel (Char.ofNat (65 + b)) .lab (course.unitsLab * 2) 3
          course.title true with
      | none => rw [h2] at h; simp at h
      | some w =>
        obtain ⟨s2, c2, f2⟩ := w
        rw [h2] at h
        dsimp only at h
        rw [Option.some_inj, Prod.mk.injEq, Prod.mk.injEq] at h
        obtain ⟨rfl, rfl, rfl⟩ := h
        exact ⟨[], counter, false, s2, f2, by simp, by simp,
          Or.inr ⟨hlec, rfl, rfl, rfl⟩, Or.inl ⟨hlab, h2⟩⟩
    · rw [if_neg hlab] at h
      dsimp only at h
      rw [Option.some_inj, Prod.mk.injEq, Prod.mk.injEq] at h
      obtain ⟨rfl, rfl, rfl⟩ := h
      exact ⟨[], counter, false, [], false, by simp, by simp,
        Or.inr ⟨hlec, rfl, rfl, rfl⟩, Or.inr ⟨hlab, rfl, rfl, rfl⟩⟩

theorem spanAppend {s1 s2 : List Session} {a b c : Nat}
    (h1 : ∀ s ∈ s1, a ≤ s.id ∧ s.id < b) (p1 : s1.Pairwise idLT)
    (h2 : ∀ s ∈ s2, b ≤ s.id ∧ s.id < c) (p2 : s2.Pairwise idLT)
    (hab : a ≤ b) (hbc : b ≤ c) :
    (∀ s ∈ s1 ++ s2, a ≤ s.id ∧ s.id < c) ∧ (s1 ++ s2).Pairwise idLT := by
  constructor
  · intro s hs
    rcases List.mem_append.1 hs with hm | hm
    · have := h1 s hm; omega
    · have := h2 s hm; omega
  · rw [List.pairwise_append]
    refine ⟨p1, p2, ?_⟩
    intro x hx y hy
    have hx2 := h1 x hx
    have hy2 := h2 y hy
    unfold idLT
    omega

theorem createSessionType_ids {cfg : Config} {prior : List Event}
    {counter : Nat} {code prog : String} {yr : Nat} {blk : Char} {kind : SessType}
    {units duration : Nat} {title : String} {isLab : Bool}
    {ss : List Session} {c' : Nat} {fb : Bool}
    (h : createSessionType cfg prior counter code prog yr blk kind units duration
      title isLab = some (ss, c', fb)) :
    counter ≤ c' ∧ (∀ s ∈ ss, counter ≤ s.id ∧ s.id < c') ∧ ss.Pairwise idLT := by
  obtain ⟨hc, _, hfields, hpair, _⟩ := createSessionType_spec h
  subst hc
  refine ⟨by omega, ?_, hpair⟩
  intro s hs
  have hf := hfields s hs
  exact ⟨hf.2.2.2.2.2.2.2.1, hf.2.2.2.2.2.2.2.2⟩

theorem createBlockSessions_ids {cfg : Config} {prior : List Event} {course : Course}
    {counter b : Nat} {ss : List Session} {c' : Nat} {fb : Bool}
    (h : createBlockSessions cfg prior course counter b = some (ss, c', fb)) :
    counter ≤ c' ∧ (∀ s ∈ ss, counter ≤ s.id ∧ s.id < c') ∧ ss.Pairwise idLT := by
  obtain ⟨s1, c1, f1, s2, f2, rfl, rfl, hl, hb⟩ := createBlockSessions_eq h
  have H1 : counter ≤ c1 ∧ (∀ s ∈ s1, counter ≤ s.id ∧ s.id < c1) ∧ s1.Pairwise idLT := by
    rcases hl with ⟨_, hl⟩ | ⟨_, rfl, rfl, _⟩
    · exact createSessionType_ids hl
    · exact ⟨le_refl _, by simp, List.Pairwise.nil⟩
  have H2 : c1 ≤ c' ∧ (∀ s ∈ s2, c1 ≤ s.id ∧ s.id < c') ∧ s2.Pairwise idLT := by
    rcases hb with ⟨_, hb⟩ | ⟨_, rfl, rfl, _⟩
    · exact createSessionType_ids hb
    · exact ⟨le_refl _, by simp, List.Pairwise.nil⟩
  obtain ⟨hc1, h1, p1⟩ := H1
  obtain ⟨hc2, h2, p2⟩ := H2
  have hspan := spanAppend h1 p1 h2 p2 hc1 hc2
  exact ⟨le_trans hc1 hc2, hspan.1, hspan.2⟩

theorem createBlocksFrom_eq {cfg : Config} {prior : List Event} {course : Course} :
    ∀ (bs : List Nat) (counter : Nat) {ss : List Session} {c' : Nat} {fb : Bool},
      createBlocksFrom cfg prior course bs counter = some (ss, c', fb) →
      (bs = [] ∧ ss = [] ∧ c' = counter ∧ fb = false) ∨
      ∃ b bs' s1 c1 f1 s2 f2,
        bs = b :: bs' ∧ ss = s1 ++ s2 ∧ fb = (f1 || f2) ∧
        createBlockSessions cfg prior course counter b = some (s1, c1, f1) ∧
        createBlocksFrom cfg prior course bs' c1 = some (s2, c', f2) := by
  intro bs counter ss c' fb h
  cases bs with
  | nil =>
    rw [createBlocksFrom, Option.some_inj, Prod.mk.injEq, Prod.mk.injEq] at h
    obtain ⟨rfl, rfl, rfl⟩ := h
    exact Or.inl ⟨rfl, rfl, rfl, rfl⟩
  | cons b bs' =>
    rw [createBlocksFrom] at h
    cases hb : createBlockSessions cfg prior course counter b with
    | none => rw [hb] at h; simp at h
    | some v =>
      obtain ⟨s1, c1, f1⟩ := v
      rw [hb] at h
      dsimp only at h
      cases hrest : createBlocksFrom cfg prior course bs' c1 with
      | none => rw [hrest] at h; simp at h
      | some w =>
        obtain ⟨s2, c2, f2⟩ := w
        rw [hrest] at h
        dsimp only at h
        rw [Option.some_inj, Prod.mk.injEq, Prod.mk.injEq] at h
        obtain ⟨rfl, rfl, rfl⟩ := h
        exact Or.inr ⟨b, bs', s1, c1, f1, s2, f2, rfl, rfl, rfl, hb, hrest⟩

theorem createBlocksFrom_ids {cfg : Config} {prior : List Event} {course : Course} :
    ∀ (bs : List Nat) (counter : Nat) {ss : List Session} {c' : Nat} {fb : Bool},
      createBlocksFrom cfg prior course bs counter = some (ss, c', fb) →
      counter ≤ c' ∧ (∀ s ∈ ss, counter ≤ s.id ∧ s.id < c') ∧ ss.Pairwise idLT := by
  intro bs
  induction bs with
  | nil =>
    intro counter ss c' fb h
    rcases createBlocksFrom_eq [] counter h with ⟨_, rfl, rfl, _⟩ | ⟨b, bs', _, _, _, _, _, hbs, _⟩
    · exact ⟨le_refl _, by simp, List.Pairwise.nil⟩
    · cases hbs
  | cons b bs' ih =>
    intro counter ss c' fb h
    rcases createBlocksFrom_eq (b :: bs') counter h with ⟨hbs, _⟩ |
      ⟨b2, bs2, s1, c1, f1, s2, f2, hbs, rfl, rfl, hblk, hrest⟩
    · cases hbs
    · obtain ⟨rfl, rfl⟩ : b2 = b ∧ bs2 = bs' := by
        rw [List.cons.injEq] at hbs
        exact ⟨hbs.1.symm, hbs.2.symm⟩
      obtain ⟨hc1, h1, p1⟩ := createBlockSessions_ids hblk
      obtain ⟨hc2, h2, p2⟩ := ih c1 hrest
      have hspan := spanAppend h1 p1 h2 p2 hc1 hc2
      exact ⟨le_trans hc1 hc2, hspan.1, hspan.2⟩

theorem createCourseSessions_ids {cfg : Config} {prior : List Event} {course : Course}
    {counter : Nat} {ss : List Session} {c' : Nat} {fb : Bool}
    (h : createCourseSessions cfg prior course counter = some (ss, c', fb)) :
    counter ≤ c' ∧ (∀ s ∈ ss, counter ≤ s.id ∧ s.id < c') ∧ ss.Pairwise idLT :=
  createBlocksFrom_ids _ _ h

theorem buildPhaseSessions_eq {cfg : Config} {prior : List Event} :
    ∀ (courses : List Course) (counter : Nat) {ss : List Session} {c' : Nat} {fb : Bool},
      buildPhaseSessions cfg prior courses counter = some (ss, c', fb) →
      (courses = [] ∧ ss = [] ∧ c' = counter ∧ fb = false) ∨
      ∃ course rest s1 c1 f1 s2 f2,
        courses = course :: rest ∧ ss = s1 ++ s2 ∧ fb = (f1 || f2) ∧
        createCourseSessions cfg prior course counter = some (s1, c1, f1) ∧
        buildPhaseSessions cfg prior rest c1 = some (s2, c', f2) := by
  intro courses counter ss c' fb h
  cases courses with
  | nil =>
    rw [buildPhaseSessions, Option.some_inj, Prod.mk.injEq, Prod.mk.injEq] at h
    obtain ⟨rfl, rfl, rfl⟩ := h
    exact Or.inl ⟨rfl, rfl, rfl, rfl⟩
  | cons course rest =>
    rw [buildPhaseSessions] at h
    cases hb : createCourseSessions cfg prior course counter with
    | none => rw [hb] at h; simp at h
    | some v =>
      obtain ⟨s1, c1, f1⟩ := v
      rw [hb] at h
      dsimp only at h
      cases hrest : buildPhaseSessions cfg prior rest c1 with
      | none => rw [hrest] at h; simp at h
      | some w =>
        obtain ⟨s2, c2, f2⟩ := w
        rw [hrest] at h
        dsimp only at h
        rw [Option.some_inj, Prod.mk.injEq, Prod.mk.injEq] at h
        obtain ⟨rfl, rfl, rfl⟩ := h
        exact Or.inr ⟨course, rest, s1, c1, f1, s2, f2, rfl, rfl, rfl, hb, hrest⟩

theorem buildPhaseSessions_ids {cfg : Config} {prior : List Event} :
    ∀ (courses : List Course) (counter : Nat) {ss : List Session} {c' : Nat} {fb : Bool},
      buildPhaseSessions cfg prior courses counter = some (ss, c', fb) →
      counter ≤ c' ∧ (∀ s ∈ ss, counter ≤ s.id ∧ s.id < c') ∧ ss.Pairwise idLT := by
  intro courses
  induction courses with
  | nil =>
    intro counter ss c' fb h
    rcases buildPhaseSessions_eq [] counter h with ⟨_, rfl, rfl, _⟩ |
      ⟨course, rest, _, _, _, _, _, hcs, _⟩
    · exact ⟨le_refl _, by simp, List.Pairwise.nil⟩
    · cases hcs
  | cons course rest ih =>
    intro counter ss c' fb h
    rcases buildPhaseSessions_eq (course :: rest) counter h with ⟨hcs, _⟩ |
      ⟨course2, rest2, s1, c1, f1, s2, f2, hcs, rfl, rfl, hcrs, hrest⟩
    · cases hcs
    · obtain ⟨rfl, rfl⟩ : course2 = course ∧ rest2 = rest := by
        rw [List.cons.injEq] at hcs
        exact ⟨hcs.1.symm, hcs.2.symm⟩
      obtain ⟨hc1, h1, p1⟩ := createCourseSessions_ids hcrs
      obtain ⟨hc2, h2, p2⟩ := ih c1 hrest
      have hspan := spanAppend h1 p1 h2 p2 hc1 hc2
      exact ⟨le_trans hc1 hc2, hspan.1, hspan.2⟩

theorem createBlocksFrom_forall {cfg : Config} {prior : List Event} {course : Course}
    {P : Session → Prop}
    (hP : ∀ counter b ss c' fb,
      createBlockSessions cfg prior course counter b = some (ss, c', fb) → ∀ s ∈ ss, P s) :
    ∀ (bs : List Nat) (counter : Nat) {ss : List Session} {c' : Nat} {fb : Bool},
      createBlocksFrom cfg prior course bs counter = some (ss, c', fb) →
      ∀ s ∈ ss, P s := by
  intro bs
  induction bs with
  | nil =>
    intro counter ss c' fb h s hs
    rcases createBlocksFrom_eq [] counter h with ⟨_, rfl, _, _⟩ |
      ⟨_, _, _, _, _, _, _, hbs, _⟩
    · cases hs
    · cases hbs
  | cons b bs' ih =>
    intro counter ss c' fb h s hs
    rcases createBlocksFrom_eq (b :: bs') counter h with ⟨hbs, _⟩ |
      ⟨b2, bs2, s1, c1, f1, s2, f2, hbs, rfl, hfb, hblk, hrest⟩
    · cases hbs
    · obtain ⟨rfl, rfl⟩ : b2 = b ∧ bs2 = bs' := by
        rw [List.cons.injEq] at hbs
        exact ⟨hbs.1.symm, hbs.2.symm⟩
      rcases List.mem_append.1 hs with hm | hm
      · exact hP _ _ _ _ _ hblk s hm
      · exact ih c1 hrest s hm

theorem buildPhaseSessions_forall {cfg : Config} {prior : List Event}
    {P : Session → Prop}
    (hP : ∀ course counter ss c' fb,
      createCourseSessions cfg prior course counter = some (ss, c', fb) → ∀ s ∈ ss, P s) :
    ∀ (courses : List Course) (counter : Nat) {ss : List Session} {c' : Nat} {fb : Bool},
      buildPhaseSessions cfg prior courses counter = some (ss, c', fb) →
      ∀ s ∈ ss, P s := by
  intro courses
  induction courses with
  | nil =>
    intro counter ss c' fb h s hs
    rcases buildPhaseSessions_eq [] counter h with ⟨_, rfl, _, _⟩ |
      ⟨_, _, _, _, _, _, _, hcs, _⟩
    · cases hs
    · cases hcs
  | cons course rest ih =>
    intro counter ss c' fb h s hs
    rcases buildPhaseSessions_eq (course :: rest) counter h with ⟨hcs, _⟩ |
      ⟨course2, rest2, s1, c1, f1, s2, f2, hcs, rfl, hfb, hcrs, hrest⟩
    · cases hcs
    · obtain ⟨rfl, rfl⟩ : course2 = course ∧ rest2 = rest := by
        rw [List.cons.injEq] at hcs
        exact ⟨hcs.1.symm, hcs.2.symm⟩
      rcases List.mem_append.1 hs with hm | hm
      · exact hP _ _ _ _ _ hcrs s hm
      · exact ih c1 hrest s hm

theorem createBlockSessions_kinddur {cfg : Config} {prior : List Event}
    {course : Course} {counter b : Nat} {ss : List Session} {c' : Nat} {fb : Bool}
    (h : createBlockSessions cfg prior course counter b = some (ss, c', fb)) :
    ∀ s ∈ ss, (s.kind = .lecture → s.duration = 2) ∧ (s.kind = .lab → s.duration = 3) := by
  obtain ⟨s1, c1, f1, s2, f2, rfl, hfb, hl, hb⟩ := createBlockSessions_eq h
  intro s hs
  rcases List.mem_append.1 hs with hm | hm
  · rcases hl with ⟨_, hl⟩ | ⟨_, rfl, _, _⟩
    · obtain ⟨_, _, hfields, _, _⟩ := createSessionType_spec hl
      obtain ⟨_, _, _, _, _, hkind, hdur, _, _⟩ := hfields s hm
      refine ⟨fun _ => hdur, fun hlab2 => ?_⟩
      rw [hkind] at hlab2
      cases hlab2
    · cases hm
  · rcases hb with ⟨_, hb⟩ | ⟨_, rfl, _, _⟩
    · obtain ⟨_, _, hfields, _, _⟩ := createSessionType_spec hb
      obtain ⟨_, _, _, _, _, hkind, hdur, _, _⟩ := hfields s hm
      refine ⟨fun hlec2 => ?_, fun _ => hdur⟩
      rw [hkind] at hlec2
      cases hlec2
    · cases hm

theorem buildPhaseSessions_kinddur {cfg : Config} {prior : List Event}
    {courses : List Course} {counter : Nat} {ss : List Session} {c' : Nat} {fb : Bool}
    (h : buildPhaseSessions cfg prior courses counter = some (ss, c', fb)) :
    ∀ s ∈ ss, (s.kind = .lecture → s.duration = 2) ∧ (s.kind = .lab → s.duration = 3) := by
  refine buildPhaseSessions_forall ?_ courses counter h
  intro course counter' ss2 c2 fb2 hc
  exact createBlocksFrom_forall
    (fun c3 b ss3 c4 fb3 hb => createBlockSessions_kinddur hb) _ _ hc

theorem createBlockSessions_free {cfg : Config} {prior : List Event}
    {course : Course} {counter b : Nat} {ss : List Session} {c' : Nat}
    (h : createBlockSessions cfg prior course counter b = some (ss, c', false)) :
    ∀ s ∈ ss, SessionDomainFree prior s := by
  obtain ⟨s1, c1, f1, s2, f2, rfl, hfb, hl, hb⟩ := createBlockSessions_eq h
  have hf1 : f1 = false := by
    cases f1
    · rfl
    · rw [Bool.true_or] at hfb; exact Bool.noConfusion hfb
  have hf2 : f2 = false := by
    subst hf1
    cases f2
    · rfl
    · rw [Bool.false_or] at hfb; exact Bool.noConfusion hfb
  subst hf1
  subst hf2
  intro s hs
  rcases List.mem_append.1 hs with hm | hm
  · rcases hl with ⟨_, hl⟩ | ⟨_, rfl, _, _⟩
    · obtain ⟨_, _, hfields, _, hfree⟩ := createSessionType_spec hl
      obtain ⟨_, _, hprog, hyr, hblk, _, hdur, _, _⟩ := hfields s hm
      unfold SessionDomainFree
      rw [hprog, hyr, hblk, hdur]
      exact hfree rfl s hm
    · cases hm
  · rcases hb with ⟨_, hb⟩ | ⟨_, rfl, _, _⟩
    · obtain ⟨_, _, hfields, _, hfree⟩ := createSessionType_spec hb
      obtain ⟨_, _, hprog, hyr, hblk, _, hdur, _, _⟩ := hfields s hm
      unfold SessionDomainFree
      rw [hprog, hyr, hblk, hdur]
      exact hfree rfl s hm
    · cases hm

theorem createBlocksFrom_free {cfg : Config} {prior : List Event} {course : Course} :
    ∀ (bs : List Nat) (counter : Nat) {ss : List Session} {c' : Nat},
      createBlocksFrom cfg prior course bs counter = some (ss, c', false) →
      ∀ s ∈ ss, SessionDomainFree prior s := by
  intro bs
  induction bs with
  | nil =>
    intro counter ss c' h s hs
    rcases createBlocksFrom_eq [] counter h with ⟨_, rfl, _, _⟩ |
      ⟨_, _, _, _, _, _, _, hbs, _⟩
    · cases hs
    · cases hbs
  | cons b bs' ih =>
    intro counter ss c' h s hs
    rcases createBlocksFrom_eq (b :: bs') counter h with ⟨hbs, _⟩ |
      ⟨b2, bs2, s1, c1, f1, s2, f2, hbs, rfl, hfb, hblk, hrest⟩
    · cases hbs
    · obtain ⟨rfl, rfl⟩ : b2 = b ∧ bs2 = bs' := by
        rw [List.cons.injEq] at hbs
        exact ⟨hbs.1.symm, hbs.2.symm⟩
      have hf1 : f1 = false := by
        cases f1
        · rfl
        · rw [Bool.true_or] at hfb; exact Bool.noConfusion hfb
      have hf2 : f2 = false := by
        subst hf1
        cases f2
        · rfl
        · rw [Bool.false_or] at hfb; exact Bool.noConfusion hfb
      subst hf1
      subst hf2
      rcases List.mem_append.1 hs with hm | hm
      · exact createBlockSessions_free hblk s hm
      · exact ih c1 hrest s hm

theorem buildPhaseSessions_free {cfg : Config} {prior : List Event} :
    ∀ (courses : List Course) (counter : Nat) {ss : List Session} {c' : Nat},
      buildPhaseSessions cfg prior courses counter = some (ss, c', false) →
      ∀ s ∈ ss, SessionDomainFree prior s := by
  intro courses
  induction courses with
  | nil =>
    intro counter ss c' h s hs
    rcases buildPhaseSessions_eq [] counter h with ⟨_, rfl, _, _⟩ |
      ⟨_, _, _, _, _, _, _, hcs, _⟩
    · cases hs
    · cases hcs
  | cons course rest ih =>
    intro counter ss c' h s hs
    rcases buildPhaseSessions_eq (course :: rest) counter h with ⟨hcs, _⟩ |
      ⟨course2, rest2, s1, c1, f1, s2, f2, hcs, rfl, hfb, hcrs, hrest⟩
    · cases hcs
    · obtain ⟨rfl, rfl⟩ : course2 = course ∧ rest2 = rest := by
        rw [List.cons.injEq] at hcs
        exact ⟨hcs.1.symm, hcs.2.symm⟩
      have hf1 : f1 = false := by
        cases f1
        · rfl
        · rw [Bool.true_or] at hfb; exact Bool.noConfusion hfb
      have hf2 : f2 = false := by
        subst hf1
        cases f2
        · rfl
        · rw [Bool.false_or] at hfb; exact Bool.noConfusion hfb
      subst hf1
      subst hf2
      rcases List.mem_append.1 hs with hm | hm
      · exact createBlocksFrom_free _ _ hcrs s hm
      · exact ih c1 hrest s hm

/-! ### Forall₂ transfer lemmas -/

theorem forall₂_exists_left {α β : Type} {R : α → β → Prop} {l1 : List α} {l2 : List β}
    (h : List.Forall₂ R l1 l2) : ∀ b ∈ l2, ∃ a ∈ l1, R a b := by
  induction h with
  | nil => intro b hb; cases hb
  | cons hr hf ih =>
    intro b hb
    rcases List.mem_cons.1 hb with rfl | hb2
    · exact ⟨_, List.mem_cons_self _ _, hr⟩
    · obtain ⟨a, ha, hra⟩ := ih b hb2
      exact ⟨a, List.mem_cons_of_mem _ ha, hra⟩

theorem forall₂_pairwise {α β : Type} {R : α → β → Prop} {Q : α → α → Prop}
    {Q' : β → β → Prop}
    (hcomp : ∀ a b a' b', R a a' → R b b' → Q a b → Q' a' b') :
    ∀ {l1 : List α} {l2 : List β}, List.Forall₂ R l1 l2 →
      l1.Pairwise Q → l2.Pairwise Q' := by
  intro l1 l2 h
  induction h with
  | nil => intro _; exact List.Pairwise.nil
  | cons hr hf ih =>
    intro hp
    obtain ⟨hhead, htail⟩ := List.pairwise_cons.1 hp
    refine List.pairwise_cons.2 ⟨?_, ih htail⟩
    intro b' hb'
    obtain ⟨a, ha, hra⟩ := forall₂_exists_left hf b' hb'
    exact hcomp _ _ _ _ hr hra (hhead a ha)

/-- The fields `SessionMatches` copies from the session into the event. -/
theorem sessionMatches_fields {cfg : Config} {s : Session} {e : Event}
    (h : SessionMatches cfg s e) :
    e.scheduleId = s.id ∧ e.baseCode = s.code ∧ e.program = s.prog ∧
    e.year = s.yr ∧ e.block = s.blk ∧ e.kind = s.kind ∧ e.duration = s.duration :=
  ⟨h.1, h.2.1, h.2.2.2.1, h.2.2.2.2.1, h.2.2.2.2.2.1, h.2.2.2.2.2.2.1,
    h.2.2.2.2.2.2.2.1⟩

theorem sessionMatches_start_mem {cfg : Config} {s : Session} {e : Event}
    (h : SessionMatches cfg s e) : e.startSlot ∈ s.domain :=
  h.2.2.2.2.2.2.2.2.1

/-! ### C2: section exclusivity -/

theorem sectionExclusive_symmetric : Symmetric SectionExclusive := by
  intro a b h hk
  exact intervalsDisjoint_symm (h hk.symm)

theorem slots_subset_sectionOccupied {prior : List Event} {p : Event}
    (hp : p ∈ prior) : ∀ t ∈ p.slots, t ∈ sectionOccupied prior p.sectionKey := by
  intro t ht
  unfold sectionOccupied
  rw [List.mem_flatMap]
  refine ⟨p, List.mem_filter.2 ⟨hp, by simp⟩, ht⟩

theorem exists_common_slot {e p : Event} (he : 0 < e.duration) (hp : 0 < p.duration)
    (hnd : ¬ IntervalsDisjoint e p) : ∃ t, t ∈ e.slots ∧ t ∈ p.slots := by
  unfold IntervalsDisjoint at hnd
  push_neg at hnd
  refine ⟨max e.startSlot p.startSlot, ?_, ?_⟩ <;>
    (unfold Event.slots; rw [List.mem_range'_1]; omega)

/-- A later-phase event whose session domain avoided the section occupancy is
interval-disjoint from every prior event of the same section. -/
theorem extracted_disjoint_of_free {cfg : Config} {prior : List Event}
    {s : Session} {e : Event} (hm : SessionMatches cfg s e)
    (hfree : SessionDomainFree prior s) {p : Event} (hp : p ∈ prior)
    (hkey : e.sectionKey = p.sectionKey) (hpdur : 0 < p.duration)
    (hedur : 0 < e.duration) : IntervalsDisjoint e p := by
  by_contra hnd
  obtain ⟨t, hte, htp⟩ := exists_common_slot hedur hpdur hnd
  obtain ⟨_, _, hprog, hyr, hblk, _, hdur⟩ := sessionMatches_fields hm
  have hfree2 := hfree e.startSlot (sessionMatches_start_mem hm)
  have hkey2 : (s.prog, s.yr, s.blk) = p.sectionKey := by
    rw [← hkey]
    unfold Event.sectionKey
    rw [hprog, hyr, hblk]
  rw [hkey2] at hfree2
  have hte2 : t ∈ List.range' e.startSlot s.duration := by
    rw [← hdur]
    exact hte
  exact hfree2 t hte2 (slots_subset_sectionOccupied hp t htp)

/-- Events of one extracted phase have positive durations, as every session
is a 2-slot lecture or a 3-slot lab. -/
theorem extracted_durpos {cfg : Config} {prior : List Event}
    {courses : List Course} {counter : Nat} {ss : List Session} {c' : Nat} {fb : Bool}
    (hb : buildPhaseSessions cfg prior courses counter = some (ss, c', fb))
    {events : List Event} (hf : List.Forall₂ (SessionMatches cfg) ss events) :
    ∀ e ∈ events, 0 < e.duration := by
  intro e he
  obtain ⟨s, hs, hm⟩ := forall₂_exists_left hf e he
  obtain ⟨_, _, _, _, _, _, hdur⟩ := sessionMatches_fields hm
  have hkd := buildPhaseSessions_kinddur hb s hs
  rw [hdur]
  cases hk : s.kind
  · rw [hkd.1 hk]; omega
  · rw [hkd.2 hk]; omega

theorem runSteps_section_pairwise {cfg : Config} {groups : List (List Course)}
    {sched : List Event} {counter : Nat} {segs : List (List Event × Bool)}
    (h : RunSteps cfg groups sched counter segs) :
    (∀ seg ∈ segs, seg.2 = false) →
    sched.Pairwise SectionExclusive → (∀ e ∈ sched, 0 < e.duration) →
      (sched ++ (segs.map Prod.fst).flatten).Pairwise SectionExclusive := by
  induction h with
  | nil s c => intro _ hs _; simpa using hs
  | step pc rest sched counter c0 sessions c' fb events segs hb0 hb hex hrest ih =>
    intro hflags hs hdur
    have hfb : fb = false := hflags (events, fb) (List.mem_cons_self _ _)
    subst hfb
    have hfree := buildPhaseSessions_free _ _ hb
    have hevdur : ∀ e ∈ events, 0 < e.duration := extracted_durpos hb hex.1
    have hall : (sched ++ events).Pairwise SectionExclusive := by
      rw [List.pairwise_append]
      refine ⟨hs, hex.2.1, ?_⟩
      intro a ha b hbmem hk
      obtain ⟨s, hsmem, hm⟩ := forall₂_exists_left hex.1 b hbmem
      exact intervalsDisjoint_symm
        (extracted_disjoint_of_free hm (hfree s hsmem) ha hk.symm (hdur a ha)
          (hevdur b hbmem))
    have hrec := ih (fun seg hseg => hflags seg (List.mem_cons_of_mem _ hseg)) hall ?hdur2
    case hdur2 =>
      intro e he
      rcases List.mem_append.1 he with hm | hm
      · exact hdur e hm
      · exact hevdur e hm
    rw [List.map_cons, List.flatten_cons, ← List.append_assoc]
    exact hrec

/-- C2 (amended).  Section exclusivity holds unconditionally between events
of the same phase; across the whole run it holds provided no phase's builder
fell back to the unfiltered search space.  (When the fallback fires, a
later-phase event may overlap an earlier-phase event of its section; see the
counterexample.) -/
theorem c2_section_exclusivity (cfg : Config) (courses : List Course)
    (segs : List (List Event × Bool))
    (h : RunSteps cfg (phaseLists courses) [] 1 segs) :
    (∀ seg ∈ segs, seg.1.Pairwise SectionExclusive) ∧
    ((∀ seg ∈ segs, seg.2 = false) →
      ∀ e1 ∈ (segs.map Prod.fst).flatten, ∀ e2 ∈ (segs.map Prod.fst).flatten,
        e1 ≠ e2 → e1.sectionKey = e2.sectionKey → IntervalsDisjoint e1 e2) := by
  constructor
  · suffices hgen : ∀ (groups : List (List Course)) (sched : List Event)
        (counter : Nat) (segs2 : List (List Event × Bool)),
        RunSteps cfg groups sched counter segs2 →
        ∀ seg ∈ segs2, seg.1.Pairwise SectionExclusive by
      exact hgen _ _ _ _ h
    intro groups sched counter segs2 h2
    induction h2 with
    | nil s c => intro seg hseg; cases hseg
    | step pc rest sched counter c0 sessions c' fb events segs2 hb0 hb hex hrest ih =>
      intro seg hseg
      rcases List.mem_cons.1 hseg with rfl | hseg2
      · exact hex.2.1
      · exact ih seg hseg2
  · intro hflags
    have hp := runSteps_section_pairwise h hflags List.Pairwise.nil (by simp)
    rw [List.nil_append] at hp
    intro e1 h1 e2 h2 hne
    exact hp.forall sectionExclusive_symmetric h1 h2 hne

/-- C2 witness: the amended law applied to the fallback-free `cfgA` run. -/
theorem c2_witness :
    (∀ seg ∈ [([eventA], false)], seg.1.Pairwise SectionExclusive) ∧
    ((∀ seg ∈ [([eventA], false)], seg.2 = false) →
      ∀ e1 ∈ ([([eventA], false)].map Prod.fst).flatten,
        ∀ e2 ∈ ([([eventA], false)].map Prod.fst).flatten,
        e1 ≠ e2 → e1.sectionKey = e2.sectionKey → IntervalsDisjoint e1 e2) :=
  c2_section_exclusivity cfgA [courseA] [([eventA], false)] runStepsA

theorem runStepsB : RunSteps cfgB (phaseLists [courseB1, courseB2]) [] 1
    [([eventB1a, eventB1b], false), ([eventB2a, eventB2b], true)] := by
  have hg : phaseLists [courseB1, courseB2] = [[courseB1], [courseB2]] := by decide
  rw [hg]
  refine RunSteps.step [courseB1] [[courseB2]] [] 1 1 sessionsB1 3 false
    [eventB1a, eventB1b] _ (Or.inl rfl) (by decide) (by decide) ?_
  exact RunSteps.step [courseB2] [] ([] ++ [eventB1a, eventB1b]) 3 3 sessionsB2 5 true
    [eventB2a, eventB2b] [] (Or.inl rfl) (by decide) (by decide) (RunSteps.nil _ _)

/-- C2 counterexample: in the `cfgB` run the phase-3 builder's occupancy
filter empties the lab domain for section `(BSCS, 1, A)`, the fallback offers
the full `lab_starts`, and the solver legally schedules a lab over the
phase-1 lecture of the same section: the final schedule violates section
exclusivity as originally claimed. -/
theorem c2_counterexample :
    ValidRun cfgB [courseB1, courseB2] [eventB1a, eventB1b, eventB2a, eventB2b] ∧
    eventB1a.sectionKey = eventB2a.sectionKey ∧ eventB1a ≠ eventB2a ∧
    ¬ IntervalsDisjoint eventB1a eventB2a :=
  ⟨⟨[([eventB1a, eventB1b], false), ([eventB2a, eventB2b], true)], runStepsB, rfl⟩,
    by decide, by decide, by decide⟩

/-! ### C4: day confinement -/

theorem runStepsD : RunSteps cfgD (phaseLists [courseA]) [] 1 [([eventD], false)] := by
  have hg : phaseLists [courseA] = [[courseA]] := by decide
  rw [hg]
  exact RunSteps.step [courseA] [] [] 1 1 [sessionD] 2 false [eventD] []
    (Or.inl rfl) (by decide) (by decide) (RunSteps.nil _ _)

/-- C4.  The day variable pins only the slot a meeting *starts* in
(`day*inc_day ≤ start < (day+1)*inc_day`); nothing constrains the last slot.
Under `cfgD` (two slots per day, two days) the model admits the lecture
`eventD` starting on Monday's last slot and running into Tuesday, so the
claimed invariant fails on a reachable solution: the start slot and the last
slot lie in different days. -/
theorem c4_day_confinement_bug :
    ValidRun cfgD [courseA] [eventD] ∧
    eventD.startSlot / cfgD.incDay ≠
      (eventD.startSlot + eventD.duration - 1) / cfgD.incDay :=
  ⟨⟨[([eventD], false)], runStepsD, rfl⟩, by decide⟩

/-! ### C10: schedule_id uniqueness -/

theorem runSteps_ids {cfg : Config} {groups : List (List Course)}
    {sched : List Event} {counter : Nat} {segs : List (List Event × Bool)}
    (h : RunSteps cfg groups sched counter segs) :
    sched.Pairwise (fun a b => a.scheduleId < b.scheduleId) →
    (∀ e ∈ sched, e.scheduleId < counter) →
    (sched ++ (segs.map Prod.fst).flatten).Pairwise
      (fun a b => a.scheduleId < b.scheduleId) := by
  induction h with
  | nil s c => intro hp _; simpa using hp
  | step pc rest sched counter c0 sessions c' fb events segs hb0 hb hex hrest ih =>
    intro hp hlt
    have hids := buildPhaseSessions_ids _ _ hb
    have hcc0 : counter ≤ c0 := by
      rcases hb0 with rfl | ⟨s₀, f₀, hb₀⟩
      · exact le_refl _
      · exact (buildPhaseSessions_ids _ _ hb₀).1
    have hevents_span : ∀ e ∈ events, c0 ≤ e.scheduleId ∧ e.scheduleId < c' := by
      intro e he
      obtain ⟨s, hs, hm⟩ := forall₂_exists_left hex.1 e he
      rw [(sessionMatches_fields hm).1]
      exact hids.2.1 s hs
    have hevents_pair : events.Pairwise (fun a b => a.scheduleId < b.scheduleId) := by
      refine forall₂_pairwise ?_ hex.1 hids.2.2
      intro a b a' b' ha hb' hq
      rw [(sessionMatches_fields ha).1, (sessionMatches_fields hb').1]
      exact hq
    have hall : (sched ++ events).Pairwise (fun a b => a.scheduleId < b.scheduleId) := by
      rw [List.pairwise_append]
      refine ⟨hp, hevents_pair, ?_⟩
      intro x hx y hy
      have h1 := hlt x hx
      have h2 := (hevents_span y hy).1
      omega
    have hlt2 : ∀ e ∈ sched ++ events, e.scheduleId < c' := by
      intro e he
      rcases List.mem_append.1 he with hm | hm
      · have h1 := hlt e hm
        have h2 := hids.1
        omega
      · exact (hevents_span e hm).2
    have hrec := ih hall hlt2
    rw [List.map_cons, List.flatten_cons, ← List.append_assoc]
    exact hrec

theorem lookupFirst_scheduleDict : ∀ {l : List Event},
    (l.map Event.scheduleId).Nodup →
    ∀ e ∈ l, lookupFirst e.scheduleId (scheduleDict l) = some e := by
  intro l
  induction l with
  | nil => intro _ e he; cases he
  | cons e0 rest ih =>
    intro hnd e he
    rw [List.map_cons, List.nodup_cons] at hnd
    rcases List.mem_cons.1 he with rfl | he2
    · show lookupFirst e.scheduleId ((e.scheduleId, e) :: scheduleDict rest) = some e
      rw [lookupFirst, if_pos rfl]
    · have hne : e0.scheduleId ≠ e.scheduleId := by
        intro hEq
        exact hnd.1 (hEq ▸ List.mem_map_of_mem Event.scheduleId he2)
      show lookupFirst e.scheduleId ((e0.scheduleId, e0) :: scheduleDict rest) = some e
      rw [lookupFirst, if_neg hne]
      exact ih hnd.2 e he2

/-- C10.  Every event of a successful run carries a distinct `schedule_id`
(the counter increments once per created session and is never reused, also
across the feasibility and optimize build attempts of a phase), so the result
dictionary `{schedule_id: event}` holds exactly one entry per event and loses
none. -/
theorem c10_schedule_id_unique (cfg : Config) (courses : List Course)
    (finalSchedule : List Event) (h : ValidRun cfg courses finalSchedule) :
    (finalSchedule.map Event.scheduleId).Nodup ∧
    (scheduleDict finalSchedule).length = finalSchedule.length ∧
    ∀ e ∈ finalSchedule, lookupFirst e.scheduleId (scheduleDict finalSchedule) = some e := by
  obtain ⟨segs, hrun, rfl⟩ := h
  have hp := runSteps_ids hrun List.Pairwise.nil (by simp)
  rw [List.nil_append] at hp
  have hnd : (((segs.map Prod.fst).flatten).map Event.scheduleId).Nodup := by
    unfold List.Nodup
    rw [List.pairwise_map]
    exact hp.imp fun hlt => Nat.ne_of_lt hlt
  exact ⟨hnd, by rw [scheduleDict, List.length_map], lookupFirst_scheduleDict hnd⟩

/-- C10 witness: the dictionary law applied to the `cfgA` run. -/
theorem c10_witness :
    ValidRun cfgA [courseA] [eventA] ∧
    (([eventA].map Event.scheduleId).Nodup ∧
    (scheduleDict [eventA]).length = [eventA].length ∧
    ∀ e ∈ [eventA], lookupFirst e.scheduleId (scheduleDict [eventA]) = some e) :=
  ⟨validRunA, c10_schedule_id_unique cfgA [courseA] [eventA] validRunA⟩

/-! ### C3: meeting counts -/

theorem createSessionType_count {cfg : Config} {prior : List Event}
    {counter : Nat} {code prog : String} {yr : Nat} {blk : Char} {kind : SessType}
    {units duration : Nat} {title : String} {isLab : Bool}
    {ss : List Session} {c' : Nat} {fb : Bool}
    (h : createSessionType cfg prior counter code prog yr blk kind units duration
      title isLab = some (ss, c', fb)) (code₀ : String) (blk₀ : Char) (k₀ : SessType) :
    countKindS ss code₀ blk₀ k₀ =
      if code = code₀ ∧ blk = blk₀ ∧ kind = k₀ then units else 0 := by
  obtain ⟨_, hlen, hfields, _, _⟩ := createSessionType_spec h
  by_cases hmatch : code = code₀ ∧ blk = blk₀ ∧ kind = k₀
  · rw [if_pos hmatch, ← hlen]
    unfold countKindS
    rw [List.countP_eq_length]
    intro s hs
    obtain ⟨_, hcode, _, _, hblk, hkind, _, _, _⟩ := hfields s hs
    rw [decide_eq_true_eq]
    exact ⟨hcode.trans hmatch.1, hblk.trans hmatch.2.1, hkind.trans hmatch.2.2⟩
  · rw [if_neg hmatch]
    unfold countKindS
    rw [List.countP_eq_zero]
    intro s hs hps
    rw [decide_eq_true_eq] at hps
    obtain ⟨_, hcode, _, _, hblk, hkind, _, _, _⟩ := hfields s hs
    exact hmatch ⟨hcode.symm.trans hps.1, hblk.symm.trans hps.2.1,
      hkind.symm.trans hps.2.2⟩

theorem createBlockSessions_count {cfg : Config} {prior : List Event}
    {course : Course} {counter b : Nat} {ss : List Session} {c' : Nat} {fb : Bool}
    (h : createBlockSessions cfg prior course counter b = some (ss, c', fb))
    (code₀ : String) (blk₀ : Char) (k₀ : SessType) :
    countKindS ss code₀ blk₀ k₀ =
      if course.courseCode = code₀ ∧ Char.ofNat (65 + b) = blk₀ then
        unitsForKind course k₀
      else 0 := by
  obtain ⟨s1, c1, f1, s2, f2, rfl, hfb, hl, hb⟩ := createBlockSessions_eq h
  have h1 : countKindS s1 code₀ blk₀ k₀ =
      if course.courseCode = code₀ ∧ Char.ofNat (65 + b) = blk₀ ∧
        SessType.lecture = k₀ then course.unitsLecture else 0 := by
    rcases hl with ⟨_, hl⟩ | ⟨hzero, rfl, _, _⟩
    · exact createSessionType_count hl code₀ blk₀ k₀
    · have h0 : course.unitsLecture = 0 := by omega
      rw [h0]
      simp [countKindS]
  have h2 : countKindS s2 code₀ blk₀ k₀ =
      if course.courseCode = code₀ ∧ Char.ofNat (65 + b) = blk₀ ∧
        SessType.lab = k₀ then course.unitsLab * 2 else 0 := by
    rcases hb with ⟨_, hb⟩ | ⟨hzero, rfl, _, _⟩
    · exact createSessionType_count hb code₀ blk₀ k₀
    · have h0 : course.unitsLab = 0 := by omega
      rw [h0]
      simp [countKindS]
  have happ : countKindS (s1 ++ s2) code₀ blk₀ k₀ =
      countKindS s1 code₀ blk₀ k₀ + countKindS s2 code₀ blk₀ k₀ := by
    unfold countKindS
    rw [List.countP_append]
  rw [happ, h1, h2]
  cases k₀ <;>
    by_cases hcode : course.courseCode = code₀ <;>
      by_cases hblk : Char.ofNat (65 + b) = blk₀ <;>
        simp [hcode, hblk, unitsForKind]

theorem count_mul_helper (cond1 : Prop) [Decidable cond1] (cond2 : Prop)
    [Decidable cond2] (n u : Nat) :
    (if cond1 ∧ cond2 then u else 0) + (if cond1 then n * u else 0) =
      if cond1 then (n + if cond2 then 1 else 0) * u else 0 := by
  by_cases h1 : cond1 <;> by_cases h2 : cond2 <;> simp [h1, h2, Nat.add_mul, Nat.add_comm]

theorem createBlocksFrom_count {cfg : Config} {prior : List Event} {course : Course} :
    ∀ (bs : List Nat) (counter : Nat) {ss : List Session} {c' : Nat} {fb : Bool},
      createBlocksFrom cfg prior course bs counter = some (ss, c', fb) →
      ∀ (code₀ : String) (blk₀ : Char) (k₀ : SessType),
      countKindS ss code₀ blk₀ k₀ =
        if course.courseCode = code₀ then
          (bs.countP fun b => Char.ofNat (65 + b) = blk₀) * unitsForKind course k₀
        else 0 := by
  intro bs
  induction bs with
  | nil =>
    intro counter ss c' fb h code₀ blk₀ k₀
    rcases createBlocksFrom_eq [] counter h with ⟨_, rfl, _, _⟩ |
      ⟨_, _, _, _, _, _, _, hbs, _⟩
    · simp [countKindS]
    · cases hbs
  | cons b bs' ih =>
    intro counter ss c' fb h code₀ blk₀ k₀
    rcases createBlocksFrom_eq (b :: bs') counter h with ⟨hbs, _⟩ |
      ⟨b2, bs2, s1, c1, f1, s2, f2, hbs, rfl, hfb, hblk, hrest⟩
    · cases hbs
    · obtain ⟨rfl, rfl⟩ : b2 = b ∧ bs2 = bs' := by
        rw [List.cons.injEq] at hbs
        exact ⟨hbs.1.symm, hbs.2.symm⟩
      have happ : countKindS (s1 ++ s2) code₀ blk₀ k₀ =
          countKindS s1 code₀ blk₀ k₀ + countKindS s2 code₀ blk₀ k₀ := by
        unfold countKindS
        rw [List.countP_append]
      rw [happ, createBlockSessions_count hblk code₀ blk₀ k₀, ih c1 hrest code₀ blk₀ k₀,
        List.countP_cons]
      simp only [decide_eq_true_eq]
      exact count_mul_helper _ _ _ _

theorem createCourseSessions_count {cfg : Config} {prior : List Event}
    {course : Course} {counter : Nat} {ss : List Session} {c' : Nat} {fb : Bool}
    (h : createCourseSessions cfg prior course counter = some (ss, c', fb))
    (code₀ : String) (blk₀ : Char) (k₀ : SessType) :
    countKindS ss code₀ blk₀ k₀ = courseContribution course code₀ blk₀ k₀ := by
  unfold createCourseSessions at h
  rw [createBlocksFrom_count _ _ h code₀ blk₀ k₀]
  rfl

theorem buildPhaseSessions_count {cfg : Config} {prior : List Event} :
    ∀ (courses : List Course) (counter : Nat) {ss : List Session} {c' : Nat} {fb : Bool},
      buildPhaseSessions cfg prior courses counter = some (ss, c', fb) →
      ∀ (code₀ : String) (blk₀ : Char) (k₀ : SessType),
      countKindS ss code₀ blk₀ k₀ =
        (courses.map fun c => courseContribution c code₀ blk₀ k₀).sum := by
  intro courses
  induction courses with
  | nil =>
    intro counter ss c' fb h code₀ blk₀ k₀
    rcases buildPhaseSessions_eq [] counter h with ⟨_, rfl, _, _⟩ |
      ⟨_, _, _, _, _, _, _, hcs, _⟩
    · simp [countKindS]
    · cases hcs
  | cons course rest ih =>
    intro counter ss c' fb h code₀ blk₀ k₀
    rcases buildPhaseSessions_eq (course :: rest) counter h with ⟨hcs, _⟩ |
      ⟨course2, rest2, s1, c1, f1, s2, f2, hcs, rfl, hfb, hcrs, hrest⟩
    · cases hcs
    · obtain ⟨rfl, rfl⟩ : course2 = course ∧ rest2 = rest := by
        rw [List.cons.injEq] at hcs
        exact ⟨hcs.1.symm, hcs.2.symm⟩
      have happ : countKindS (s1 ++ s2) code₀ blk₀ k₀ =
          countKindS s1 code₀ blk₀ k₀ + countKindS s2 code₀ blk₀ k₀ := by
        unfold countKindS
        rw [List.countP_append]
      rw [happ, List.map_cons, List.sum_cons,
        createCourseSessions_count hcrs code₀ blk₀ k₀, ih c1 hrest code₀ blk₀ k₀]

theorem forall₂_countKind {cfg : Config} {ss : List Session} {es : List Event}
    (hf : List.Forall₂ (SessionMatches cfg) ss es)
    (code₀ : String) (blk₀ : Char) (k₀ : SessType) :
    countKind es code₀ blk₀ k₀ = countKindS ss code₀ blk₀ k₀ := by
  induction hf with
  | nil => rfl
  | cons hr hf2 ih =>
    unfold countKind countKindS at ih ⊢
    rw [List.countP_cons, List.countP_cons, ih]
    congr 1
    obtain ⟨_, hcode, _, _, hblk, hkind, _⟩ := sessionMatches_fields hr
    simp [hcode, hblk, hkind]

theorem runSteps_count {cfg : Config} {groups : List (List Course)}
    {sched : List Event} {counter : Nat} {segs : List (List Event × Bool)}
    (h : RunSteps cfg groups sched counter segs)
    (code₀ : String) (blk₀ : Char) (k₀ : SessType) :
    countKind ((segs.map Prod.fst).flatten) code₀ blk₀ k₀ =
      (groups.map fun cs =>
        (cs.map fun c => courseContribution c code₀ blk₀ k₀).sum).sum := by
  induction h with
  | nil s c => simp [countKind]
  | step pc rest sched counter c0 sessions c' fb events segs hb0 hb hex hrest ih =>
    rw [List.map_cons, List.flatten_cons, List.map_cons, List.sum_cons]
    have happ : countKind (events ++ (segs.map Prod.fst).flatten) code₀ blk₀ k₀ =
        countKind events code₀ blk₀ k₀ +
          countKind ((segs.map Prod.fst).flatten) code₀ blk₀ k₀ := by
      unfold countKind
      rw [List.countP_append]
    rw [happ, ih, forall₂_countKind hex.1 code₀ blk₀ k₀,
      buildPhaseSessions_count pc c0 hb code₀ blk₀ k₀]

theorem partition_snd_perm (courses : List Course) :
    ((prioritizeAndPartitionCourses courses).map Prod.snd).Perm courses := by
  have h1 : (prioritizeAndPartitionCourses courses).map Prod.snd =
      ((scoredCourses courses).insertionSort scoredLE).map fun x => x.2.2 := by
    unfold prioritizeAndPartitionCourses
    rw [List.map_map]
    rfl
  have h2 := (List.perm_insertionSort scoredLE (scoredCourses courses)).map
    fun x : SchedulingPhase × Nat × Course => x.2.2
  have h3 : (scoredCourses courses).map (fun x => x.2.2) = courses := by
    unfold scoredCourses
    rw [List.map_map]
    exact List.map_id courses
  rw [h1]
  rw [h3] at h2
  exact h2

theorem filter_three_perm {α : Type} (p1 p2 p3 : α → Bool) (l : List α)
    (h : ∀ a ∈ l, (p1 a ∧ ¬p2 a ∧ ¬p3 a) ∨ (¬p1 a ∧ p2 a ∧ ¬p3 a) ∨
      (¬p1 a ∧ ¬p2 a ∧ p3 a)) :
    (l.filter p1 ++ l.filter p2 ++ l.filter p3).Perm l := by
  induction l with
  | nil => simp
  | cons a l ih =>
    have ha := h a (List.mem_cons_self _ _)
    have hrest := fun b hb => h b (List.mem_cons_of_mem _ hb)
    rcases ha with ⟨h1, h2, h3⟩ | ⟨h1, h2, h3⟩ | ⟨h1, h2, h3⟩
    · rw [List.filter_cons_of_pos h1, List.filter_cons_of_neg (by simpa using h2),
        List.filter_cons_of_neg (by simpa using h3)]
      simp only [List.cons_append]
      exact (ih hrest).cons a
    · rw [List.filter_cons_of_neg (by simpa using h1), List.filter_cons_of_pos h2,
        List.filter_cons_of_neg (by simpa using h3)]
      have hmid : List.Perm (l.filter p1 ++ a :: l.filter p2)
          (a :: (l.filter p1 ++ l.filter p2)) := List.perm_middle
      refine ((hmid.append_right (l.filter p3)).trans ?_)
      simp only [List.cons_append]
      exact (ih hrest).cons a
    · rw [List.filter_cons_of_neg (by simpa using h1),
        List.filter_cons_of_neg (by simpa using h2), List.filter_cons_of_pos h3]
      have hmid : List.Perm ((l.filter p1 ++ l.filter p2) ++ a :: l.filter p3)
          (a :: ((l.filter p1 ++ l.filter p2) ++ l.filter p3)) := List.perm_middle
      refine hmid.trans ?_
      exact (ih hrest).cons a

theorem phaseLists_flatten_perm (courses : List Course) :
    (phaseLists courses).flatten.Perm courses := by
  unfold phaseLists
  have hfe : ∀ (L : List (List Course)),
      ((L.filter fun l => !l.isEmpty).flatten) = L.flatten := by
    intro L
    induction L with
    | nil => rfl
    | cons l L ih =>
      by_cases hl : l.isEmpty
      · rw [List.filter_cons_of_neg (by simp [hl]), List.flatten_cons]
        have hnil : l = [] := by
          cases l
          · rfl
          · cases hl
        rw [hnil, List.nil_append, ih]
      · rw [List.filter_cons_of_pos (by simp [hl]), List.flatten_cons,
          List.flatten_cons, ih]
  rw [hfe]
  simp only [List.map_cons, List.map_nil, List.flatten_cons, List.flatten_nil,
    List.append_nil]
  rw [← List.append_assoc, ← List.map_append, ← List.map_append]
  have hpart := filter_three_perm
    (fun x : SchedulingPhase × Course => x.1 = SchedulingPhase.PHASE_1_FLEXIBLE)
    (fun x => x.1 = SchedulingPhase.PHASE_2_REGULAR)
    (fun x => x.1 = SchedulingPhase.PHASE_3_CRITICAL)
    (prioritizeAndPartitionCourses courses) ?_
  · exact (hpart.map Prod.snd).trans (partition_snd_perm courses)
  · intro x _
    cases hx : x.1 <;> simp [hx]

theorem letter_inj :
    ∀ b1, b1 < 26 → ∀ b2, b2 < 26 →
      (Char.ofNat (65 + b1) = Char.ofNat (65 + b2) ↔ b1 = b2) := by
  decide

theorem countP_range_letter {blocks b : Nat} (hb : b < blocks) (h26 : blocks ≤ 26) :
    ((List.range blocks).countP fun b2 => Char.ofNat (65 + b2) = Char.ofNat (65 + b)) = 1 := by
  have hcong : ((List.range blocks).countP
      fun b2 => Char.ofNat (65 + b2) = Char.ofNat (65 + b)) =
      (List.range blocks).countP fun b2 => b2 = b := by
    rw [List.countP_eq_length_filter, List.countP_eq_length_filter]
    congr 1
    apply List.filter_congr
    intro b2 hb2
    rw [List.mem_range] at hb2
    rw [decide_eq_decide]
    exact letter_inj b2 (by omega) b (by omega)
  rw [hcong]
  have key : ∀ (l : List Nat), l.Nodup → b ∈ l →
      (l.countP fun b2 => b2 = b) = 1 := by
    intro l hnd hmem
    induction l with
    | nil => cases hmem
    | cons a l ih =>
      rw [List.nodup_cons] at hnd
      rw [List.countP_cons]
      by_cases hab : a = b
      · subst hab
        have hz : l.countP (fun b2 => b2 = a) = 0 := by
          rw [List.countP_eq_zero]
          intro x hx hpx
          rw [decide_eq_true_eq] at hpx
          subst hpx
          exact hnd.1 hx
        simp [hz]
      · have hm : b ∈ l := by
          rcases List.mem_cons.1 hmem with hEq | hmm2
          · exact absurd hEq.symm hab
          · exact hmm2
        have h1 := ih hnd.2 hm
        simp [h1, hab]
  exact key (List.range blocks) (List.nodup_range blocks) (List.mem_range.2 hb)

/-- C3 (amended).  In every successful run with distinct course codes and at
most 26 blocks per course, each `(course, block)` receives exactly
`units_lecture` Lecture events of duration 2 and `units_lab * 2` (not
`units_lab`) Laboratory events of duration 3. -/
theorem c3_meeting_count (cfg : Config) (courses : List Course)
    (finalSchedule : List Event) (h : ValidRun cfg courses finalSchedule)
    (hcodes : (courses.map Course.courseCode).Nodup) :
    (∀ c ∈ courses, c.blocks ≤ 26 → ∀ b, b < c.blocks →
      countKind finalSchedule c.courseCode (Char.ofNat (65 + b)) .lecture =
        c.unitsLecture ∧
      countKind finalSchedule c.courseCode (Char.ofNat (65 + b)) .lab =
        c.unitsLab * 2) ∧
    (∀ e ∈ finalSchedule, (e.kind = .lecture → e.duration = 2) ∧
      (e.kind = .lab → e.duration = 3)) := by
  obtain ⟨segs, hrun, rfl⟩ := h
  constructor
  · intro c hc h26 b hb
    have hkey : ∀ k₀, countKind ((segs.map Prod.fst).flatten) c.courseCode
        (Char.ofNat (65 + b)) k₀ = unitsForKind c k₀ := by
      intro k₀
      rw [runSteps_count hrun c.courseCode (Char.ofNat (65 + b)) k₀]
      have hsum : ((phaseLists courses).map fun cs =>
          (cs.map fun c2 => courseContribution c2 c.courseCode
            (Char.ofNat (65 + b)) k₀).sum).sum =
          ((phaseLists courses).flatten.map fun c2 => courseContribution c2
            c.courseCode (Char.ofNat (65 + b)) k₀).sum := by
        rw [List.map_flatten, List.sum_flatten, List.map_map]
        rfl
      rw [hsum, List.Perm.sum_eq ((phaseLists_flatten_perm courses).map _)]
      have hone : ∀ (l : List Course), (l.map Course.courseCode).Nodup → c ∈ l →
          (l.map fun c2 => courseContribution c2 c.courseCode
            (Char.ofNat (65 + b)) k₀).sum =
            courseContribution c c.courseCode (Char.ofNat (65 + b)) k₀ := by
        intro l
        induction l with
        | nil => intro _ hcl; cases hcl
        | cons c0 rest ih =>
          intro hnd hcl
          rw [List.map_cons, List.nodup_cons] at hnd
          rw [List.map_cons, List.sum_cons]
          rcases List.mem_cons.1 hcl with rfl | hcl2
          · have hrest : (rest.map fun c2 => courseContribution c2 c.courseCode
                (Char.ofNat (65 + b)) k₀).sum = 0 := by
              apply List.sum_eq_zero
              intro x hx
              obtain ⟨c2, hc2, rfl⟩ := List.mem_map.1 hx
              unfold courseContribution
              rw [if_neg]
              intro hEq
              exact hnd.1 (hEq ▸ List.mem_map_of_mem Course.courseCode hc2)
            rw [hrest, Nat.add_zero]
          · have hne : c0.courseCode ≠ c.courseCode := by
              intro hEq
              exact hnd.1 (hEq ▸ List.mem_map_of_mem Course.courseCode hcl2)
            rw [show courseContribution c0 c.courseCode (Char.ofNat (65 + b)) k₀ = 0
              from by unfold courseContribution; rw [if_neg hne],
              Nat.zero_add]
            exact ih hnd.2 hcl2
      rw [hone courses hcodes hc]
      unfold courseContribution
      rw [if_pos rfl, countP_range_letter hb h26, Nat.one_mul]
    exact ⟨hkey .lecture, hkey .lab⟩
  · suffices hgen : ∀ (groups : List (List Course)) (sched : List Event)
        (counter : Nat) (segs2 : List (List Event × Bool)),
        RunSteps cfg groups sched counter segs2 →
        ∀ e ∈ (segs2.map Prod.fst).flatten,
          (e.kind = .lecture → e.duration = 2) ∧ (e.kind = .lab → e.duration = 3) by
      exact hgen _ _ _ _ hrun
    intro groups sched counter segs2 h2
    induction h2 with
    | nil s c => intro e he; simp at he
    | step pc rest sched counter c0 sessions c' fb events segs2 hb0 hb hex hrest ih =>
      intro e he
      rw [List.map_cons, List.flatten_cons] at he
      rcases List.mem_append.1 he with hm | hm
      · obtain ⟨s, hs, hmm⟩ := forall₂_exists_left hex.1 e hm
        obtain ⟨_, _, _, _, _, hkind, hdur⟩ := sessionMatches_fields hmm
        have hkd := buildPhaseSessions_kinddur hb s hs
        constructor
        · intro hk
          rw [hdur]
          exact hkd.1 (hkind.symm.trans hk)
        · intro hk
          rw [hdur]
          exact hkd.2 (hkind.symm.trans hk)
      · exact ih e hm

theorem runStepsC : RunSteps cfgC (phaseLists [courseC]) [] 1 [([eventCa, eventCb], false)] := by
  have hg : phaseLists [courseC] = [[courseC]] := by decide
  rw [hg]
  exact RunSteps.step [courseC] [] [] 1 1 sessionsC 3 false [eventCa, eventCb] []
    (Or.inl rfl) (by decide) (by decide) (RunSteps.nil _ _)

/-- C3 counterexample: one lab unit yields two Laboratory events in a valid
run, refuting the claimed `units_lab` count. -/
theorem c3_counterexample :
    ValidRun cfgC [courseC] [eventCa, eventCb] ∧
    courseC.unitsLab = 1 ∧
    countKind [eventCa, eventCb] "CS150" 'A' .lab = 2 ∧
    countKind [eventCa, eventCb] "CS150" 'A' .lab ≠ courseC.unitsLab :=
  ⟨⟨[([eventCa, eventCb], false)], runStepsC, rfl⟩, by decide, by decide, by decide⟩

/-! ### C8: progress monotonicity -/

theorem attemptWrites_chain (T p n : Nat) :
    (attemptWrites T p n).Chain' (· ≤ ·) := by
  refine List.Pairwise.chain' ?_
  unfold attemptWrites
  rw [List.pairwise_map]
  refine (List.pairwise_lt_range n).imp ?_
  intro a b hab
  have hdiv : (a + 1) * ((50 + p * 40 / T) - (50 + (p - 1) * 40 / T)) / n ≤
      (b + 1) * ((50 + p * 40 / T) - (50 + (p - 1) * 40 / T)) / n :=
    Nat.div_le_div_right (Nat.mul_le_mul_right _ (by omega))
  exact_mod_cast Nat.add_le_add_left hdiv _

theorem attemptWrites_bounds (T p n : Nat) :
    ∀ x ∈ attemptWrites T p n,
      ((50 + (p - 1) * 40 / T : Nat) : ℤ) ≤ x ∧ x ≤ ((50 + p * 40 / T : Nat) : ℤ) := by
  intro x hx
  unfold attemptWrites at hx
  obtain ⟨idx, hidx, rfl⟩ := List.mem_map.1 hx
  rw [List.mem_range] at hidx
  constructor
  · exact_mod_cast Nat.le_add_right _ _
  · have hle : (p - 1) * 40 / T ≤ p * 40 / T :=
      Nat.div_le_div_right (Nat.mul_le_mul_right _ (by omega))
    have h2 : (idx + 1) * ((50 + p * 40 / T) - (50 + (p - 1) * 40 / T)) / n ≤
        (50 + p * 40 / T) - (50 + (p - 1) * 40 / T) := by
      refine Nat.div_le_of_le_mul ?_
      exact Nat.mul_le_mul_right _ (by omega)
    have h3 : 50 + (p - 1) * 40 / T +
        (idx + 1) * ((50 + p * 40 / T) - (50 + (p - 1) * 40 / T)) / n ≤
        50 + p * 40 / T := by omega
    exact_mod_cast h3

theorem attemptWrites_first_lower {T n : Nat} (hn : 1 ≤ n) (hfirst : 2 * n ≤ 40 / T) :
    ∀ x ∈ attemptWrites T 1 n, (52 : ℤ) ≤ x := by
  intro x hx
  unfold attemptWrites at hx
  simp only [Nat.sub_self, Nat.zero_mul, Nat.zero_div, Nat.add_zero, Nat.one_mul] at hx
  obtain ⟨idx, hidx, rfl⟩ := List.mem_map.1 hx
  have hΔ : (50 + 40 / T) - 50 = 40 / T := by omega
  rw [hΔ]
  have h1 : 2 ≤ 40 / T / n := (Nat.le_div_iff_mul_le (by omega)).2 hfirst
  have h2 : 40 / T / n ≤ (idx + 1) * (40 / T) / n :=
    Nat.div_le_div_right (Nat.le_mul_of_pos_left _ (Nat.succ_pos idx))
  have h3 : (52 : Nat) ≤ 50 + (idx + 1) * (40 / T) / n := by omega
  exact_mod_cast h3

theorem phasesWrites_good (T : Nat) :
    ∀ (ps : List (Nat × Bool)) (p : Nat), 1 ≤ p →
    (∀ nb ∈ ps, nb.2 = false) → p - 1 + ps.length ≤ T →
    (phasesWrites T p ps).Chain' (· ≤ ·) ∧
    ∀ x ∈ phasesWrites T p ps,
      ((50 + (p - 1) * 40 / T : Nat) : ℤ) ≤ x ∧ x ≤ 90 := by
  intro ps
  induction ps with
  | nil =>
    intro p _ _ _
    exact ⟨List.chain'_nil, by simp [phasesWrites]⟩
  | cons nb rest ih =>
    intro p hp hflags hT
    obtain ⟨n, r⟩ := nb
    have hr : r = false := hflags (n, r) (List.mem_cons_self _ _)
    subst hr
    rw [phasesWrites]
    have hpw : phaseWrites T p n false = attemptWrites T p n := by
      simp [phaseWrites]
    rw [hpw]
    have hblock := attemptWrites_bounds T p n
    obtain ⟨hrc, hrb⟩ := ih (p + 1) (by omega)
      (fun nb2 hnb => hflags nb2 (List.mem_cons_of_mem _ hnb))
      (by rw [List.length_cons] at hT; omega)
    have hpT : p ≤ T := by
      rw [List.length_cons] at hT
      omega
    have hcap : p * 40 / T ≤ 40 :=
      Nat.div_le_of_le_mul (Nat.mul_le_mul_right _ hpT)
    constructor
    · rw [List.chain'_append]
      refine ⟨attemptWrites_chain T p n, hrc, ?_⟩
      intro x hx y hy
      have hx2 := (hblock x (List.mem_of_getLast?_eq_some hx)).2
      have hy2 := (hrb y (List.mem_of_mem_head? hy)).1
      have hsimp : p + 1 - 1 = p := by omega
      rw [hsimp] at hy2
      omega
    · intro x hx
      rcases List.mem_append.1 hx with hm | hm
      · have h1 := hblock x hm
        refine ⟨h1.1, ?_⟩
        have h2 := h1.2
        have h3 : ((50 + p * 40 / T : Nat) : ℤ) ≤ 90 := by exact_mod_cast by omega
        omega
      · have h1 := hrb x hm
        refine ⟨?_, h1.2⟩
        have h2 := h1.1
        have hsimp : p + 1 - 1 = p := by omega
        rw [hsimp] at h2
        have hmono : (p - 1) * 40 / T ≤ p * 40 / T :=
          Nat.div_le_div_right (Nat.mul_le_mul_right _ (by omega))
        have h3 : ((50 + (p - 1) * 40 / T : Nat) : ℤ) ≤ ((50 + p * 40 / T : Nat) : ℤ) := by
          exact_mod_cast by omega
        omega

/-- C8 (amended).  The progress writes of a successful run are monotone
nondecreasing provided every phase solves on its first attempt and the first
phase has at most `(40 / total_phases) / 2` courses; all writes lie in
`[5, 100]`, so the `-1` sentinel is never written on the success path.
(Without these provisos monotonicity fails: an optimize retry re-emits the
build range — see the counterexample — and a large first phase writes values
below the 52 checkpoint.) -/
theorem c8_progress_monotone (phases : List (Nat × Bool))
    (hnoretry : ∀ nb ∈ phases, nb.2 = false)
    (hpos : ∀ nb ∈ phases, 1 ≤ nb.1)
    (hfirst : ∀ n r rest, phases = (n, r) :: rest → 2 * n ≤ 40 / phases.length) :
    (progressTrace phases).Chain' (· ≤ ·) ∧
    ∀ x ∈ progressTrace phases, 5 ≤ x ∧ x ≤ 100 := by
  cases hps : phases with
  | nil =>
    subst hps
    constructor
    · exact List.Pairwise.chain' (by decide)
    · intro x hx
      simp [progressTrace, phasesWrites] at hx
      omega
  | cons nb rest =>
    subst hps
    obtain ⟨n1, r1⟩ := nb
    have hr1 : r1 = false := hnoretry (n1, r1) (List.mem_cons_self _ _)
    subst hr1
    have hn1 : 1 ≤ n1 := hpos (n1, false) (List.mem_cons_self _ _)
    have hf := hfirst n1 false rest rfl
    rw [List.length_cons] at hf
    have hgood := phasesWrites_good (rest.length + 1) ((n1, false) :: rest) 1
      (le_refl 1) hnoretry (by rw [List.length_cons]; omega)
    have hmid_low : ∀ x ∈ phasesWrites (rest.length + 1) 1 ((n1, false) :: rest),
        (52 : ℤ) ≤ x := by
      intro x hx
      rw [phasesWrites] at hx
      have hpw : phaseWrites (rest.length + 1) 1 n1 false =
          attemptWrites (rest.length + 1) 1 n1 := by
        simp [phaseWrites]
      rw [hpw] at hx
      rcases List.mem_append.1 hx with hm | hm
      · exact attemptWrites_first_lower hn1 hf x hm
      · have hgood2 := phasesWrites_good (rest.length + 1) rest 2 (by omega)
          (fun nb2 hnb => hnoretry nb2 (List.mem_cons_of_mem _ hnb)) (by omega)
        have h1 := (hgood2.2 x hm).1
        have hnorm : (2 - 1) * 40 / (rest.length + 1) = 40 / (rest.length + 1) := by
          norm_num
        rw [hnorm] at h1
        have hcast : ((50 + 40 / (rest.length + 1) : Nat) : ℤ) =
            50 + ((40 / (rest.length + 1) : Nat) : ℤ) := by
          push_cast
          ring
        rw [hcast] at h1
        have h2 : (2 : ℤ) ≤ ((40 / (rest.length + 1) : Nat) : ℤ) := by
          have : 2 ≤ 40 / (rest.length + 1) := by omega
          exact_mod_cast this
        omega
    have hlen : ((n1, false) :: rest).length = rest.length + 1 := List.length_cons _ _
    unfold progressTrace
    rw [hlen, List.append_assoc]
    have hA : List.Chain' (· ≤ (· : ℤ)) [5, 15, 25, 35, 45, 50, 52] :=
      List.Pairwise.chain' (by decide)
    have hC : List.Chain' (· ≤ (· : ℤ)) [95, 100] :=
      List.Pairwise.chain' (by decide)
    constructor
    · rw [List.chain'_append]
      refine ⟨hA, ?_, ?_⟩
      · rw [List.chain'_append]
        refine ⟨hgood.1, hC, ?_⟩
        intro x hx y hy
        have hx2 := (hgood.2 x (List.mem_of_getLast?_eq_some hx)).2
        have hy2 := List.mem_of_mem_head? hy
        simp at hy2
        rcases hy2 with rfl | rfl <;> omega
      · intro x hx y hy
        have hx2 : x = 52 := by
          simp at hx
          omega
        subst hx2
        have hy2 := List.mem_of_mem_head? hy
        rcases List.mem_append.1 hy2 with hm | hm
        · exact hmid_low y hm
        · simp at hm
          rcases hm with rfl | rfl <;> omega
    · intro x hx
      rcases List.mem_append.1 hx with hm | hm
      · simp at hm
        omega
      · rcases List.mem_append.1 hm with hm2 | hm2
        · have h1 := hmid_low x hm2
          have h2 := (hgood.2 x hm2).2
          omega
        · simp at hm2
          rcases hm2 with rfl | rfl <;> omega

/-- C8 counterexample: a successful run whose single phase needs the
optimize retry re-emits the build-progress range, producing the trace
`[5, 15, 25, 35, 45, 50, 52, 70, 90, 70, 90, 95, 100]`, which is not
monotone. -/
theorem c8_counterexample :
    ¬ (progressTrace [(2, true)]).Chain' (· ≤ ·) := by
  rw [List.chain'_iff_pairwise]
  decide

/-- C8 witness: one retry-free phase of two courses gives the monotone trace
`[5, 15, 25, 35, 45, 50, 52, 70, 90, 95, 100]` with all writes in bounds. -/
theorem c8_witness :
    (progressTrace [(2, false)]).Chain' (· ≤ ·) ∧
    ∀ x ∈ progressTrace [(2, false)], 5 ≤ x ∧ x ≤ 100 :=
  c8_progress_monotone [(2, false)] (by decide) (by decide)
    (fun n r rest h => by
      rw [List.cons.injEq, Prod.mk.injEq] at h
      obtain ⟨⟨rfl, _⟩, rfl⟩ := h
      decide)

/-- C3 witness: the amended counting law applied to the `cfgA` run. -/
theorem c3_witness :
    ValidRun cfgA [courseA] [eventA] ∧
    ([courseA].map Course.courseCode).Nodup ∧
    ((∀ c ∈ [courseA], c.blocks ≤ 26 → ∀ b, b < c.blocks →
      countKind [eventA] c.courseCode (Char.ofNat (65 + b)) .lecture =
        c.unitsLecture ∧
      countKind [eventA] c.courseCode (Char.ofNat (65 + b)) .lab =
        c.unitsLab * 2) ∧
    (∀ e ∈ [eventA], (e.kind = .lecture → e.duration = 2) ∧
      (e.kind = .lab → e.duration = 3))) :=
  ⟨validRunA, by decide,
    c3_meeting_count cfgA [courseA] [eventA] validRunA (by decide)⟩

/-! ### C9: failure semantics of `solve` / `generate_schedule` -/

/-- If any phase outcome is a failure, the `solve` loop returns the
sentinel, whatever events were already accumulated. -/
theorem solveLoop_none_mem : ∀ (outcomes : List (Option (List Event)))
    (acc : List Event), none ∈ outcomes → solveLoop outcomes acc = .impossible := by
  intro outcomes
  induction outcomes with
  | nil => intro acc h; cases h
  | cons o rest ih =>
    intro acc h
    cases o with
    | none => rfl
    | some evs =>
      rcases List.mem_cons.1 h with h | h
      · exact Option.noConfusion h
      · exact ih (acc ++ evs) h

/-- If the `solve` loop returns a schedule, every phase succeeded and the
result is the accumulator followed by all the phases' events in order. -/
theorem solveLoop_schedule : ∀ (outcomes : List (Option (List Event)))
    (acc s : List Event), solveLoop outcomes acc = .schedule s →
    ∃ evss : List (List Event), outcomes = evss.map some ∧
      s = acc ++ evss.flatten := by
  intro outcomes
  induction outcomes with
  | nil =>
    intro acc s h
    simp only [solveLoop, RunResult.schedule.injEq] at h
    exact ⟨[], rfl, by simp [h]⟩
  | cons o rest ih =>
    intro acc s h
    cases o with
    | none => exact RunResult.noConfusion h
    | some evs =>
      obtain ⟨evss, h1, h2⟩ := ih (acc ++ evs) s h
      refine ⟨evs :: evss, ?_, ?_⟩
      · rw [List.map_cons, h1]
      · rw [h2, List.flatten_cons, List.append_assoc]

/-- C9: failure semantics.  If the catalog loader raises or any phase fails,
`generate_schedule` writes progress `-1` and returns the sentinel
`"impossible"`; whenever a schedule is returned, every phase succeeded and
the result is the final sort of all phases' events — no partial schedule is
ever returned. -/
theorem c9_failure_semantics (cfg : Config) (loadOk : Bool)
    (outcomes : List (Option (List Event))) :
    ((loadOk = false ∨ none ∈ outcomes) →
        (generateScheduleRun cfg loadOk outcomes).1 = RunResult.impossible ∧
          (-1 : ℤ) ∈ (generateScheduleRun cfg loadOk outcomes).2) ∧
      ∀ s, (generateScheduleRun cfg loadOk outcomes).1 = RunResult.schedule s →
        ∃ evss : List (List Event), outcomes = evss.map some ∧
          s = finalSort cfg evss.flatten := by
  cases loadOk with
  | false =>
    refine ⟨fun _ => ⟨rfl, ?_⟩, fun s h => RunResult.noConfusion h⟩
    exact List.Mem.head _
  | true =>
    cases hsl : solveLoop outcomes [] with
    | impossible =>
      have hg : generateScheduleRun cfg true outcomes =
          (RunResult.impossible, [52, -1]) := by
        unfold generateScheduleRun solveOrch
        rw [hsl]
        rfl
      rw [hg]
      refine ⟨fun _ => ⟨rfl, ?_⟩, fun s h => RunResult.noConfusion h⟩
      exact List.Mem.tail _ (List.Mem.head _)
    | schedule l =>
      have hg : generateScheduleRun cfg true outcomes =
          (RunResult.schedule (finalSort cfg l), [52, 95, 100]) := by
        unfold generateScheduleRun solveOrch
        rw [hsl]
        rfl
      rw [hg]
      constructor
      · rintro (h | h)
        · exact Bool.noConfusion h
        · rw [solveLoop_none_mem outcomes [] h] at hsl
          exact RunResult.noConfusion hsl
      · intro s h
        obtain ⟨evss, h1, h2⟩ := solveLoop_schedule outcomes [] l hsl
        have h' : RunResult.schedule (finalSort cfg l) = RunResult.schedule s := h
        injection h' with h'
        refine ⟨evss, h1, ?_⟩
        rw [← h', h2]
        rfl

/-- C9 witness: a run whose single phase fails returns the sentinel and
writes `-1`. -/
theorem c9_witness :
    (generateScheduleRun cfgA true [none]).1 = RunResult.impossible ∧
      (-1 : ℤ) ∈ (generateScheduleRun cfgA true [none]).2 :=
  (c9_failure_semantics cfgA true [none]).1 (Or.inr (List.Mem.head _))

end OptiSchedule
